import Mathlib

/-!
# Verification of the smpain_HR utility scripts

Shallow embedding of the three Python utility scripts of the repository
(`scripts/sync-progress.py`, `scripts/auto-detect-progress.py`,
`scripts/auto-date-updater.py`) and proofs about them.

Text is modelled as `List Char`.  Python regular-expression operations used by
the scripts are modelled by executable scanning functions that reproduce the
leftmost, non-overlapping semantics of `re.sub` / `re.findall` for the exact
patterns occurring in the source (documented at each definition).
-/

/-- Text, modelled as a list of characters. -/
abbrev Str := List Char

/-- Convert a string literal to the character-list representation. -/
def str (s : String) : Str := s.toList

/-- `startsWith p s` : `p` is a prefix of `s` (Python `s.startswith(p)` /
a regex literal matching at the current position). -/
def startsWith : Str → Str → Bool
  | [], _ => true
  | _ :: _, [] => false
  | a :: as, b :: bs => a == b && startsWith as bs

/-- `hasSub p s` : `p` occurs somewhere in `s` (Python `p in s`). -/
def hasSub (p : Str) : Str → Bool
  | [] => startsWith p []
  | c :: cs => startsWith p (c :: cs) || hasSub p cs

/-- `endsWith p s` : `p` is a suffix of `s`. -/
def endsWith (p s : Str) : Bool := startsWith p.reverse s.reverse

theorem startsWith_append (p t : Str) : startsWith p (p ++ t) = true := by
  induction p with
  | nil => rfl
  | cons a as ih => simp [startsWith, ih]

theorem startsWith_eq_append {p s : Str} (h : startsWith p s = true) :
    s = p ++ s.drop p.length := by
  induction p generalizing s with
  | nil => simp
  | cons a as ih =>
    cases s with
    | nil => simp [startsWith] at h
    | cons b bs =>
      simp only [startsWith, Bool.and_eq_true, beq_iff_eq] at h
      obtain ⟨rfl, h2⟩ := h
      simpa [List.drop] using ih h2

theorem startsWith_of_startsWith_append {p a b : Str}
    (h : startsWith p a = true) : startsWith p (a ++ b) = true := by
  induction p generalizing a with
  | nil => rfl
  | cons x xs ih =>
    cases a with
    | nil => simp [startsWith] at h
    | cons y ys =>
      simp only [startsWith, Bool.and_eq_true] at h ⊢
      exact ⟨h.1, ih h.2⟩

/-! ## Progress Sync : `calculate_progress` (sync-progress.py, lines 78-83)

The two task lists accumulated by `extract_progress`;
`calculate_progress` divides the counts.  Python's `round(x, 1)` rounds half
to even; the arithmetic is modelled exactly over `ℚ`. -/

/-- An entry of `self.completed_tasks` (file name, task text, date). -/
structure CompletedTask where
  file : Str
  task : Str
  date : Str
deriving DecidableEq

/-- An entry of `self.in_progress_tasks`. -/
structure InProgressTask where
  file : Str
  task : Str
deriving DecidableEq

/-- Round half to even to the nearest integer, as Python's `round` does. -/
def halfEvenRound (q : ℚ) : ℤ :=
  let f := ⌊q⌋
  let r := q - (f : ℚ)
  if r < 1/2 then f
  else if 1/2 < r then f + 1
  else if f % 2 = 0 then f else f + 1

/-- Python `round(x, 1)`. -/
def pyRound1 (q : ℚ) : ℚ := (halfEvenRound (q * 10) : ℚ) / 10

/-- `ProgressSync.calculate_progress` : `0` when there are no tasks, otherwise
`round((len(completed) / total) * 100, 1)`. -/
def calculate_progress (completed : List CompletedTask)
    (in_progress : List InProgressTask) : ℚ :=
  let total := completed.length + in_progress.length
  if total = 0 then 0
  else pyRound1 ((completed.length : ℚ) / (total : ℚ) * 100)

/-! ## Progress Detector : confidence scoring
(auto-detect-progress.py, `infer_completions`, lines 188-243) -/

/-- An element of the `detected` list produced by `detect_implementation`:
task text, human-readable evidence string, and feature type. -/
structure DetectedItem where
  task : Str
  evidence : Str
  ty : Str
deriving DecidableEq

/-- An element of the `completions` list produced by `infer_completions`
(the `timestamp` field is the `now` argument below). -/
structure Completion where
  task : Str
  confidence : Nat
  evidence : List Str
  timestamp : Str
deriving DecidableEq

/-- Membership test of `item['type'] in code_changes` (dict key lookup). -/
def changesHasKey (codeChanges : List (Str × List Str)) (k : Str) : Bool :=
  codeChanges.any (fun kv => kv.1 == k)

/-- Python `', '.join(files)`. -/
def joinComma : List Str → Str
  | [] => []
  | [f] => f
  | f :: fs => f ++ str ", " ++ joinComma fs

/-- The per-task score accumulated in `infer_completions`:
+40 if the evidence string is non-empty, +30 if the item's type is a key of
`code_changes`, +20 if `test_results` is non-empty, +10 if dev mode is on. -/
def taskScore (codeChanges : List (Str × List Str)) (testResults : List Str)
    (devMode : Bool) (it : DetectedItem) : Nat :=
  (if it.evidence ≠ [] then 40 else 0)
  + (if changesHasKey codeChanges it.ty then 30 else 0)
  + (if testResults ≠ [] then 20 else 0)
  + (if devMode then 10 else 0)

/-- The evidence list accumulated alongside the score. -/
def taskEvidence (codeChanges : List (Str × List Str)) (testResults : List Str)
    (devMode : Bool) (it : DetectedItem) : List Str :=
  (if it.evidence ≠ [] then [it.evidence] else [])
  ++ (if changesHasKey codeChanges it.ty then
        [str "Related files changed: "
          ++ joinComma (((codeChanges.filter (fun kv => kv.1 == it.ty)).map
              Prod.snd).foldr (· ++ ·) [])]
      else [])
  ++ (if testResults ≠ [] then [str "Tests executed recently"] else [])
  ++ (if devMode then [str "Development server running"] else [])

/-- The completion record built for a detected item. -/
def toCompletion (codeChanges : List (Str × List Str)) (testResults : List Str)
    (devMode : Bool) (now : Str) (it : DetectedItem) : Completion :=
  ⟨it.task, taskScore codeChanges testResults devMode it,
   taskEvidence codeChanges testResults devMode it, now⟩

/-- `infer_completions` (the aggregation loop, lines 208-243): a detected item
is appended to `completions` exactly when its score is at least 60. -/
def infer_completions (codeChanges : List (Str × List Str))
    (testResults : List Str) (devMode : Bool) (now : Str)
    (detected : List DetectedItem) : List Completion :=
  (detected.filter
      (fun it => 60 ≤ taskScore codeChanges testResults devMode it)).map
    (toCompletion codeChanges testResults devMode now)

/-- The claim's formulation of the score: sum of the weights of exactly the
present signals. -/
def specSignalScore (fileEvidence typeMatch testsRecent devRunning : Bool) :
    Nat :=
  ((if fileEvidence then [40] else []) ++ (if typeMatch then [30] else [])
    ++ (if testsRecent then [20] else [])
    ++ (if devRunning then [10] else [])).sum

/-- C1: for every detected task, the confidence score is the exact sum of the
weights of the present signals, and the task is reported as a detected
completion iff the score is at least 60. -/
theorem c1_infer_score_threshold
    (codeChanges : List (Str × List Str)) (testResults : List Str)
    (devMode : Bool) (now : Str) (detected : List DetectedItem)
    (it : DetectedItem) (hmem : it ∈ detected) :
    taskScore codeChanges testResults devMode it
      = specSignalScore (it.evidence ≠ []) (changesHasKey codeChanges it.ty)
          (testResults ≠ []) devMode
    ∧ (toCompletion codeChanges testResults devMode now it
          ∈ infer_completions codeChanges testResults devMode now detected
        ↔ 60 ≤ taskScore codeChanges testResults devMode it) := by
  constructor
  · by_cases h1 : it.evidence = [] <;>
      by_cases h2 : changesHasKey codeChanges it.ty <;>
      by_cases h3 : testResults = [] <;>
      by_cases h4 : devMode <;>
      simp [taskScore, specSignalScore, h1, h2, h3, h4]
  · constructor
    · intro h
      simp only [infer_completions, List.mem_map, List.mem_filter,
        decide_eq_true_eq] at h
      obtain ⟨it', ⟨_, h60⟩, heq⟩ := h
      have : taskScore codeChanges testResults devMode it'
          = taskScore codeChanges testResults devMode it :=
        congrArg Completion.confidence heq
      omega
    · intro h
      simp only [infer_completions, List.mem_map, List.mem_filter,
        decide_eq_true_eq]
      exact ⟨it, ⟨hmem, h⟩, rfl⟩

/-- Witness for C1 at a concrete input. -/
theorem c1_infer_score_threshold_witness :
    (⟨str "Add Excel export", str "File created/modified: x.ts",
        str "excel_export"⟩ : DetectedItem)
      ∈ [(⟨str "Add Excel export", str "File created/modified: x.ts",
            str "excel_export"⟩ : DetectedItem)]
    ∧ taskScore [(str "excel_export", [str "a.js"])] [str "t.json"] true
        ⟨str "Add Excel export", str "File created/modified: x.ts",
          str "excel_export"⟩
      = specSignalScore true true true true :=
  ⟨by decide,
   (c1_infer_score_threshold [(str "excel_export", [str "a.js"])]
      [str "t.json"] true (str "2026-10-12")
      [⟨str "Add Excel export", str "File created/modified: x.ts",
        str "excel_export"⟩]
      ⟨str "Add Excel export", str "File created/modified: x.ts",
        str "excel_export"⟩ (by decide)).1.trans (by decide)⟩

/-- C2: `calculate_progress` returns 0 on no tasks and otherwise
`completed / (completed + in-progress) × 100` rounded (half to even) to one
decimal place; with 3 completed and 1 in-progress task it returns exactly
75.0. -/
theorem c2_calculate_progress :
    calculate_progress [] [] = 0
    ∧ (∀ (c : List CompletedTask) (p : List InProgressTask),
        c.length + p.length ≠ 0 →
          calculate_progress c p
            = pyRound1 ((c.length : ℚ)
                / ((c.length + p.length : ℕ) : ℚ) * 100))
    ∧ (∀ (c : List CompletedTask) (p : List InProgressTask),
        c.length = 3 → p.length = 1 → calculate_progress c p = 75) := by
  refine ⟨by decide, ?_, ?_⟩
  · intro c p h
    simp [calculate_progress, h]
  · intro c p hc hp
    simp only [calculate_progress, hc, hp]
    norm_num [pyRound1, halfEvenRound]

/-- Witness for C2 at concrete inputs. -/
theorem c2_calculate_progress_witness :
    ([⟨str "a", str "t1", str "d"⟩] : List CompletedTask).length
        + ([] : List InProgressTask).length ≠ 0
    ∧ calculate_progress [⟨str "a", str "t1", str "d"⟩] []
        = pyRound1
            (((([⟨str "a", str "t1", str "d"⟩] : List CompletedTask).length :
                  ℚ))
              / ((([⟨str "a", str "t1", str "d"⟩] :
                      List CompletedTask).length
                  + ([] : List InProgressTask).length : ℕ) : ℚ) * 100)
    ∧ calculate_progress
        [⟨str "a", str "t1", str "d"⟩, ⟨str "a", str "t2", str "d"⟩,
         ⟨str "a", str "t3", str "d"⟩] [⟨str "a", str "t4"⟩] = 75 :=
  ⟨by decide,
   c2_calculate_progress.2.1 _ _ (by decide),
   c2_calculate_progress.2.2 _ _ rfl rfl⟩

/-! ## Progress Detector : `check_running_services`
(auto-detect-progress.py, lines 162-186)

The body of the `try` block runs two external commands in sequence.  An
exception from either invocation is modelled as `Except.error ()`; the
`except: pass` catches it, so the function returns whatever `indicators`
entries were assigned before the failure. -/

/-- The outcomes of the two external invocations: stdout on success,
`error` when the invocation raises. -/
structure ProbeOutcome where
  ss : Except Unit Str
  ps : Except Unit Str

/-- The `indicators` dictionary: each field is `true` when the corresponding
key was inserted. -/
structure Indicators where
  frontend : Bool
  backend : Bool
  devMode : Bool
deriving DecidableEq

/-- `check_running_services`: port scan from `ss -tuln` output, then process
scan from `ps aux` output; `except: pass` returns the indicators assigned so
far when either invocation raises. -/
def check_running_services (o : ProbeOutcome) : Indicators :=
  match o.ss with
  | .error _ => ⟨false, false, false⟩
  | .ok out =>
    let fe := hasSub (str ":3727") out
    let be := hasSub (str ":5455") out || hasSub (str ":5456") out
    match o.ps with
    | .error _ => ⟨fe, be, false⟩
    | .ok psOut =>
      ⟨fe, be, hasSub (str "npm run dev") psOut || hasSub (str "vite") psOut⟩

/-- Whether the `try` body raised (i.e. either external invocation failed). -/
def probeRaised (o : ProbeOutcome) : Bool :=
  match o.ss, o.ps with
  | .error _, _ => true
  | .ok _, .error _ => true
  | .ok _, .ok _ => false

/-- C8: the probe never propagates an error — for every outcome, including
failures of `ss` or `ps`, it returns an indicator mapping, and the mapping
returned after a failure also arises from some fully successful probe (a
failure is indistinguishable from the absence of the unprobed services). -/
theorem c8_probe_never_raises (o : ProbeOutcome) :
    (∃ ssOut psOut : Str,
        check_running_services ⟨.ok ssOut, .ok psOut⟩
          = check_running_services o)
    ∧ (probeRaised o = true →
        ∃ ssOut psOut : Str,
          check_running_services ⟨.ok ssOut, .ok psOut⟩
            = check_running_services o)
    ∧ (∀ e, o.ss = .error e → check_running_services o = ⟨false, false, false⟩)
    ∧ (∀ e, o.ps = .error e → (check_running_services o).devMode = false) := by
  obtain ⟨ss, ps⟩ := o
  refine ⟨?_, fun _ => ?_, ?_, ?_⟩
  · cases ss with
    | error e => exact ⟨[], [], by simp [check_running_services, hasSub, startsWith, str]⟩
    | ok out =>
      cases ps with
      | error e =>
        refine ⟨out, [], ?_⟩
        simp [check_running_services, hasSub, startsWith, str]
      | ok psOut => exact ⟨out, psOut, rfl⟩
  · cases ss with
    | error e => exact ⟨[], [], by simp [check_running_services, hasSub, startsWith, str]⟩
    | ok out =>
      cases ps with
      | error e =>
        refine ⟨out, [], ?_⟩
        simp [check_running_services, hasSub, startsWith, str]
      | ok psOut => exact ⟨out, psOut, rfl⟩
  · intro e he
    cases ss with
    | error e' => rfl
    | ok out => simp at he
  · intro e he
    cases ss with
    | error e' => rfl
    | ok out =>
      cases ps with
      | error e' => rfl
      | ok psOut => simp at he

/-- Witness for C8 at a concrete failing outcome. -/
theorem c8_probe_never_raises_witness :
    probeRaised ⟨.error (), .error ()⟩ = true
    ∧ (∃ ssOut psOut : Str,
        check_running_services ⟨.ok ssOut, .ok psOut⟩
          = check_running_services ⟨.error (), .error ()⟩)
    ∧ check_running_services ⟨.error (), .error ()⟩ = ⟨false, false, false⟩ :=
  ⟨rfl, (c8_probe_never_raises ⟨.error (), .error ()⟩).2.1 rfl,
   (c8_probe_never_raises ⟨.error (), .error ()⟩).2.2.1 () rfl⟩

/-! ## Progress Sync : plan-file scanning (sync-progress.py, lines 20-49)

`scan_plan_files` collects `glob('*-plan.md')` followed by
`glob('FEAT-*-plan.md')` and runs `extract_progress` on every element of the
concatenated list.  `extract_progress` uses
`re.findall(r'- \[x\] (.+?)(?:\n|$)', content)` for completed tasks and
`re.findall(r'- \[ \] (.+?)(?:🔄|진행중)', content)` for in-progress tasks.
`findall` scans left to right for non-overlapping matches; `.` never matches
a newline, so the non-greedy `(.+?)(?:\n|$)` capture is the non-empty text up
to the first newline (consuming it), or to the end of the string. -/

/-- One match attempt of `- \[x\] (.+?)(?:\n|$)` at the head of `s`:
returns the capture and the number of characters consumed by the match. -/
def cMatchAt (s : Str) : Option (Str × Nat) :=
  if startsWith (str "- [x] ") s then
    let t := s.drop 6
    match t with
    | [] => none
    | c :: _ =>
      if c = '\n' then none
      else
        let body := t.takeWhile (fun x => x ≠ '\n')
        some (body, 6 + Nat.min (body.length + 1) t.length)
  else none

/-- The `findall` scan loop: `skip` characters of the previous match are
still to be consumed; at `skip = 0` a match is attempted at the current
position, and on success the scan resumes after the matched text. -/
def extractCompletedAux : Nat → Str → List Str
  | _, [] => []
  | k + 1, _ :: cs => extractCompletedAux k cs
  | 0, c :: cs =>
    match cMatchAt (c :: cs) with
    | some (cap, k) => cap :: extractCompletedAux (k - 1) cs
    | none => extractCompletedAux 0 cs

/-- `re.findall(r'- \[x\] (.+?)(?:\n|$)', content)`. -/
def extractCompleted (s : Str) : List Str := extractCompletedAux 0 s

/-- The alternation `(?:🔄|진행중)` tried at the current position:
`some n` gives the token length consumed. -/
def ipStop (t : Str) : Option Nat :=
  if startsWith (str "🔄") t then some 1
  else if startsWith (str "진행중") t then some 3
  else none

/-- Non-greedy search for the stop token of `- \[ \] (.+?)(?:🔄|진행중)`:
`acc` is the reversed capture so far (the capture must be non-empty, and `.`
cannot cross a newline).  Returns the capture and the number of characters
consumed from the search start. -/
def ipFind (acc : Str) : Str → Option (Str × Nat)
  | [] => none
  | c :: cs =>
    match acc, ipStop (c :: cs) with
    | _ :: _, some n => some (acc.reverse, acc.length + n)
    | _, _ => if c = '\n' then none else ipFind (c :: acc) cs

/-- One match attempt of `- \[ \] (.+?)(?:🔄|진행중)` at the head of `s`. -/
def ipMatchAt (s : Str) : Option (Str × Nat) :=
  if startsWith (str "- [ ] ") s then
    (ipFind [] (s.drop 6)).map (fun p => (p.1, 6 + p.2))
  else none

/-- The `findall` scan loop for the in-progress pattern. -/
def extractInProgressAux : Nat → Str → List Str
  | _, [] => []
  | k + 1, _ :: cs => extractInProgressAux k cs
  | 0, c :: cs =>
    match ipMatchAt (c :: cs) with
    | some (cap, k) => cap :: extractInProgressAux (k - 1) cs
    | none => extractInProgressAux 0 cs

/-- `re.findall(r'- \[ \] (.+?)(?:🔄|진행중)', content)`. -/
def extractInProgress (s : Str) : List Str := extractInProgressAux 0 s

/-- A plan file on disk: name and content. -/
structure PlanFile where
  name : Str
  content : Str
deriving DecidableEq

/-- `glob('*-plan.md')` membership: the name ends with `-plan.md`. -/
def matchStarPlan (n : Str) : Bool := endsWith (str "-plan.md") n

/-- `glob('FEAT-*-plan.md')` membership: the name is
`FEAT-` ++ mid ++ `-plan.md`. -/
def matchFeatPlan (n : Str) : Bool :=
  startsWith (str "FEAT-") n && endsWith (str "-plan.md") (n.drop 5)

/-- The concatenated plan-file list built by `scan_plan_files` (lines 22-23)
and by `analyze_plan_files` / `update_plan_files` of the detector
(lines 106-107, 253-254). -/
def globPlanFiles (files : List PlanFile) : List PlanFile :=
  files.filter (fun f => matchStarPlan f.name)
    ++ files.filter (fun f => matchFeatPlan f.name)

/-- The completed-task list accumulated over the scanned plan files. -/
def scanCompletedTasks (files : List PlanFile) (date : Str) :
    List CompletedTask :=
  (globPlanFiles files).flatMap
    (fun f => (extractCompleted f.content).map (fun t => ⟨f.name, t, date⟩))

/-- The in-progress-task list accumulated over the scanned plan files. -/
def scanInProgressTasks (files : List PlanFile) : List InProgressTask :=
  (globPlanFiles files).flatMap
    (fun f => (extractInProgress f.content).map (fun t => ⟨f.name, t⟩))

theorem reverse_drop_startsWith {p n : Str} {k : Nat}
    (h : startsWith p (n.drop k).reverse = true) :
    startsWith p n.reverse = true := by
  have hn : n = n.take k ++ n.drop k := (List.take_append_drop k n).symm
  calc startsWith p n.reverse
      = startsWith p ((n.drop k).reverse ++ (n.take k).reverse) := by
        conv_lhs => rw [hn]
        rw [List.reverse_append]
    _ = true := startsWith_of_startsWith_append h

/-- C9: every `FEAT-*-plan.md` name also matches `*-plan.md`; such a file is
scanned twice, so its checked and in-progress tasks each appear twice in the
aggregated lists, and the file occurs (at least) twice in the scanned file
list. -/
theorem c9_feat_double_scan :
    (∀ n : Str, matchFeatPlan n = true → matchStarPlan n = true)
    ∧ (∀ (f : PlanFile) (date : Str), matchFeatPlan f.name = true →
        scanCompletedTasks [f] date
            = (extractCompleted f.content).map (fun t => ⟨f.name, t, date⟩)
              ++ (extractCompleted f.content).map (fun t => ⟨f.name, t, date⟩)
          ∧ scanInProgressTasks [f]
            = (extractInProgress f.content).map (fun t => ⟨f.name, t⟩)
              ++ (extractInProgress f.content).map (fun t => ⟨f.name, t⟩))
    ∧ (∀ (files : List PlanFile) (f : PlanFile), f ∈ files →
        matchFeatPlan f.name = true → 2 ≤ (globPlanFiles files).count f) := by
  have hsub : ∀ n : Str, matchFeatPlan n = true → matchStarPlan n = true := by
    intro n h
    simp only [matchFeatPlan, Bool.and_eq_true] at h
    exact reverse_drop_startsWith h.2
  refine ⟨hsub, ?_, ?_⟩
  · intro f date hf
    have hs := hsub f.name hf
    constructor
    · simp [scanCompletedTasks, globPlanFiles, List.filter, hs, hf]
    · simp [scanInProgressTasks, globPlanFiles, List.filter, hs, hf]
  · intro files f hmem hf
    have hs := hsub f.name hf
    have h1 : 1 ≤ (files.filter (fun g => matchStarPlan g.name)).count f := by
      rw [List.one_le_count_iff]
      exact List.mem_filter.mpr ⟨hmem, hs⟩
    have h2 : 1 ≤ (files.filter (fun g => matchFeatPlan g.name)).count f := by
      rw [List.one_le_count_iff]
      exact List.mem_filter.mpr ⟨hmem, hf⟩
    calc 2 ≤ (files.filter (fun g => matchStarPlan g.name)).count f
            + (files.filter (fun g => matchFeatPlan g.name)).count f := by
          omega
      _ = (globPlanFiles files).count f := (List.count_append ..).symm

/-- Witness for C9 at a concrete FEAT plan file. -/
theorem c9_feat_double_scan_witness :
    matchFeatPlan (str "FEAT-x-plan.md") = true
    ∧ matchStarPlan (str "FEAT-x-plan.md") = true
    ∧ scanCompletedTasks
        [⟨str "FEAT-x-plan.md", str "- [x] done task\n"⟩] (str "2026.10.12")
      = [⟨str "FEAT-x-plan.md", str "done task", str "2026.10.12"⟩,
         ⟨str "FEAT-x-plan.md", str "done task", str "2026.10.12"⟩] := by
  refine ⟨by decide, c9_feat_double_scan.1 _ (by decide), ?_⟩
  have h := (c9_feat_double_scan.2.1
    ⟨str "FEAT-x-plan.md", str "- [x] done task\n"⟩ (str "2026.10.12")
    (by decide)).1
  rw [h]
  decide

/-! ## Generic `re.sub` scanning

`re.sub` scans left to right; at each position it attempts a match, replaces
the matched text and resumes after it.  A matcher `m s` returns the rendered
replacement together with the number of characters consumed (all matchers in
this file consume at least one character on success). -/

/-- The scan loop of `re.sub`: `skip` characters of the previous match remain
to be dropped; at `skip = 0` a match is attempted at the current position. -/
def scanSubAux (m : Str → Option (Str × Nat)) : Nat → Str → Str
  | _, [] => []
  | k + 1, _ :: cs => scanSubAux m k cs
  | 0, c :: cs =>
    match m (c :: cs) with
    | some (r, k) => r ++ scanSubAux m (k - 1) cs
    | none => c :: scanSubAux m 0 cs

/-- `re.sub` with matcher `m` over the whole text. -/
def scanSub (m : Str → Option (Str × Nat)) (s : Str) : Str := scanSubAux m 0 s

/-- Whether `m` matches at some position of `s` (model of `re.search`). -/
def anyMatch (m : Str → Option (Str × Nat)) : Str → Bool
  | [] => (m []).isSome
  | c :: cs => (m (c :: cs)).isSome || anyMatch m cs

theorem scanSubAux_skip (m : Str → Option (Str × Nat)) (x rest : Str) :
    scanSubAux m x.length (x ++ rest) = scanSubAux m 0 rest := by
  induction x with
  | nil => rfl
  | cons c x ih => simpa [scanSubAux] using ih

theorem scanSub_append_of_noMatch {m : Str → Option (Str × Nat)} {A rest : Str}
    (h : ∀ k, k < A.length → m ((A ++ rest).drop k) = none) :
    scanSubAux m 0 (A ++ rest) = A ++ scanSubAux m 0 rest := by
  induction A with
  | nil => rfl
  | cons c A ih =>
    have h0 := h 0 (by simp)
    simp only [List.drop_zero, List.cons_append] at h0
    show scanSubAux m 0 (c :: (A ++ rest)) = c :: (A ++ scanSubAux m 0 rest)
    rw [scanSubAux, h0]
    exact congrArg (c :: ·) (ih (fun k hk => by
      have := h (k + 1) (by simpa using Nat.succ_lt_succ hk)
      simpa using this))

theorem scanSub_match_step {m : Str → Option (Str × Nat)} {u rest r : Str}
    (hne : u ≠ []) (hm : m (u ++ rest) = some (r, u.length)) :
    scanSubAux m 0 (u ++ rest) = r ++ scanSubAux m 0 rest := by
  cases u with
  | nil => exact absurd rfl hne
  | cons c u =>
    simp only [List.cons_append, List.length_cons] at hm
    show scanSubAux m 0 (c :: (u ++ rest)) = r ++ scanSubAux m 0 rest
    rw [scanSubAux, hm]
    simpa using congrArg (r ++ ·) (scanSubAux_skip m u rest)

theorem scanSub_eq_self_of_noMatch {m : Str → Option (Str × Nat)} {B : Str}
    (h : ∀ k, m (B.drop k) = none) : scanSubAux m 0 B = B := by
  have h2 : scanSubAux m 0 (B ++ []) = B ++ scanSubAux m 0 [] :=
    scanSub_append_of_noMatch (fun k hk => by simpa using h k)
  simpa [scanSubAux] using h2

/-! ## Progress Detector : plan-file checkbox rewriting
(auto-detect-progress.py, `update_plan_files`, lines 245-279)

For each completion the pattern
`- \[ \] ({re.escape(task[:50])}.*?)(?:\n|$)` is substituted by
`- [x] \1 ✅ ({date} 자동 감지)` via `re.sub` (which replaces **every**
non-overlapping match and consumes the `\n` of each matched line). -/

/-- The rendered replacement for a matched checkbox line whose capture is
`P ++ body`. -/
def planTaskRepl (P body d : Str) : Str :=
  str "- [x] " ++ P ++ body ++ str " ✅ (" ++ d ++ str " 자동 감지)"

/-- One match attempt of `- \[ \] (P.*?)(?:\n|$)` at the head of `s`
(`P` a literal): the non-greedy body runs to the first newline (consumed) or
to the end of the string. -/
def planMatchAt (P d : Str) (s : Str) : Option (Str × Nat) :=
  if startsWith (str "- [ ] " ++ P) s then
    some (planTaskRepl P
        ((s.drop (6 + P.length)).takeWhile (fun x => x != '\n')) d,
      6 + P.length
        + Nat.min
            (((s.drop (6 + P.length)).takeWhile
                (fun x => x != '\n')).length + 1)
            (s.drop (6 + P.length)).length)
  else none

/-- The content rewrite applied to one plan file for one detected task
(`re.sub` with the pattern built from `task[:50]`). -/
def update_plan_content (task d content : Str) : Str :=
  scanSub (planMatchAt (task.take 50) d) content

theorem takeWhile_append_newline {b : Str} (rest : Str) (hb : '\n' ∉ b) :
    (b ++ '\n' :: rest).takeWhile (fun x => x != '\n') = b := by
  induction b with
  | nil => simp [List.takeWhile_cons]
  | cons c cs ih =>
    have hc : c ≠ '\n' := fun h => hb (h ▸ List.mem_cons_self c cs)
    have hcs : '\n' ∉ cs := fun h => hb (List.mem_cons_of_mem c h)
    simp [List.takeWhile_cons, hc, ih hcs]

theorem planMatchAt_cons_match (P d b rest : Str) (hb : '\n' ∉ b) :
    planMatchAt P d ((str "- [ ] " ++ P) ++ (b ++ '\n' :: rest))
      = some (planTaskRepl P b d, ((str "- [ ] " ++ P) ++ (b ++ ['\n'])).length)
      := by
  have h6 : (str "- [ ] ").length = 6 := rfl
  have hl : (str "- [ ] " ++ P).length = 6 + P.length := by
    rw [List.length_append, h6]
  have hsw : startsWith (str "- [ ] " ++ P)
      ((str "- [ ] " ++ P) ++ (b ++ '\n' :: rest)) = true :=
    startsWith_append _ _
  have hdrop : ((str "- [ ] " ++ P) ++ (b ++ '\n' :: rest)).drop (6 + P.length)
      = b ++ '\n' :: rest := by
    rw [← hl, List.drop_left]
  unfold planMatchAt
  rw [if_pos hsw, hdrop, takeWhile_append_newline rest hb]
  have hmin : Nat.min (b.length + 1) (b ++ '\n' :: rest).length
      = b.length + 1 :=
    Nat.min_eq_left (by simp only [List.length_append, List.length_cons]; omega)
  rw [hmin]
  have hr : ((str "- [ ] " ++ P) ++ (b ++ ['\n'])).length
      = 6 + P.length + (b.length + 1) := by
    simp only [List.length_append, List.length_cons, List.length_nil, h6]
  rw [hr]

theorem planMatchAt_nil (P d : Str) : planMatchAt P d [] = none := by
  have h : startsWith (str "- [ ] " ++ P) [] = false := rfl
  unfold planMatchAt
  rw [if_neg]
  simp [h]

/-- C3 counterexample: with task `A` and two unchecked lines both starting
with the task text, the rewrite changes *both* lines (and consumes their
newlines); the second matching line is not left byte-identical, contradicting
the claim that only the first match is rewritten. -/
theorem c3_first_only_counterexample :
    update_plan_content (str "A") (str "2026.10.12")
        (str "- [ ] A1\n- [ ] A2\n")
      = str "- [x] A1 ✅ (2026.10.12 자동 감지)- [x] A2 ✅ (2026.10.12 자동 감지)"
    ∧ hasSub (str "- [ ] A2")
        (update_plan_content (str "A") (str "2026.10.12")
          (str "- [ ] A1\n- [ ] A2\n")) = false := by
  constructor
  · decide
  · decide

/-- C3 amended: the rewrite changes **every** unchecked checkbox occurrence
whose text starts with the task's first 50 characters — not merely the first —
replacing `- [ ]` by `- [x]`, appending the checkmark and date, and consuming
the matched line's newline; text at positions where the pattern does not
match is unchanged. -/
theorem c3_rewrite_all_matching (task d A b1 B b2 C : Str)
    (hb1 : '\n' ∉ b1) (hb2 : '\n' ∉ b2)
    (hA : ∀ k, k < A.length →
      planMatchAt (task.take 50) d
        ((A ++ ((str "- [ ] " ++ task.take 50) ++ (b1 ++ '\n' ::
          (B ++ ((str "- [ ] " ++ task.take 50) ++ (b2 ++ '\n' :: C)))))).drop
            k) = none)
    (hB : ∀ k, k < B.length →
      planMatchAt (task.take 50) d
        ((B ++ ((str "- [ ] " ++ task.take 50) ++ (b2 ++ '\n' :: C))).drop k)
          = none)
    (hC : ∀ k, k < C.length →
      planMatchAt (task.take 50) d (C.drop k) = none) :
    update_plan_content task d
        (A ++ ((str "- [ ] " ++ task.take 50) ++ (b1 ++ '\n' ::
          (B ++ ((str "- [ ] " ++ task.take 50) ++ (b2 ++ '\n' :: C))))))
      = A ++ (planTaskRepl (task.take 50) b1 d
          ++ (B ++ (planTaskRepl (task.take 50) b2 d ++ C))) := by
  set P := task.take 50 with hP
  set pre := str "- [ ] " ++ P with hpre
  set rest2 := B ++ (pre ++ (b2 ++ '\n' :: C)) with hrest2
  have step1 : scanSubAux (planMatchAt P d) 0
      (A ++ (pre ++ (b1 ++ '\n' :: rest2)))
      = A ++ scanSubAux (planMatchAt P d) 0 (pre ++ (b1 ++ '\n' :: rest2)) :=
    scanSub_append_of_noMatch hA
  have harg1 : (pre ++ (b1 ++ ['\n'])) ++ rest2
      = pre ++ (b1 ++ '\n' :: rest2) := by
    simp [List.append_assoc]
  have hm1 : planMatchAt P d ((pre ++ (b1 ++ ['\n'])) ++ rest2)
      = some (planTaskRepl P b1 d, (pre ++ (b1 ++ ['\n'])).length) := by
    rw [harg1]
    exact planMatchAt_cons_match P d b1 rest2 hb1
  have step2 : scanSubAux (planMatchAt P d) 0 (pre ++ (b1 ++ '\n' :: rest2))
      = planTaskRepl P b1 d ++ scanSubAux (planMatchAt P d) 0 rest2 := by
    have h := scanSub_match_step (u := pre ++ (b1 ++ ['\n']))
      (by simp [hpre]) hm1
    rwa [harg1] at h
  have step3 : scanSubAux (planMatchAt P d) 0 rest2
      = B ++ scanSubAux (planMatchAt P d) 0 (pre ++ (b2 ++ '\n' :: C)) :=
    scanSub_append_of_noMatch hB
  have harg2 : (pre ++ (b2 ++ ['\n'])) ++ C = pre ++ (b2 ++ '\n' :: C) := by
    simp [List.append_assoc]
  have hm2 : planMatchAt P d ((pre ++ (b2 ++ ['\n'])) ++ C)
      = some (planTaskRepl P b2 d, (pre ++ (b2 ++ ['\n'])).length) := by
    rw [harg2]
    exact planMatchAt_cons_match P d b2 C hb2
  have step4 : scanSubAux (planMatchAt P d) 0 (pre ++ (b2 ++ '\n' :: C))
      = planTaskRepl P b2 d ++ scanSubAux (planMatchAt P d) 0 C := by
    have h := scanSub_match_step (u := pre ++ (b2 ++ ['\n']))
      (by simp [hpre]) hm2
    rwa [harg2] at h
  have hC' : ∀ k, planMatchAt P d (C.drop k) = none := by
    intro k
    by_cases hk : k < C.length
    · exact hC k hk
    · rw [List.drop_eq_nil_of_le (by omega)]
      exact planMatchAt_nil P d
  have step5 : scanSubAux (planMatchAt P d) 0 C = C :=
    scanSub_eq_self_of_noMatch hC'
  show scanSubAux (planMatchAt P d) 0
      (A ++ (pre ++ (b1 ++ '\n' :: rest2))) = _
  rw [step1, step2, step3, step4, step5]

/-- Witness for C3 (amended) at a concrete input. -/
theorem c3_rewrite_all_matching_witness :
    ('\n' ∉ str "A1") ∧ ('\n' ∉ str "A2")
    ∧ update_plan_content (str "A") (str "2026.10.12")
        (str "x\n" ++ ((str "- [ ] " ++ (str "A").take 50) ++ (str "A1" ++ '\n' ::
          (str "y\n" ++ ((str "- [ ] " ++ (str "A").take 50)
            ++ (str "A2" ++ '\n' :: str "z"))))))
      = str "x\n" ++ (planTaskRepl ((str "A").take 50) (str "A1") (str "2026.10.12")
          ++ (str "y\n" ++ (planTaskRepl ((str "A").take 50) (str "A2") (str "2026.10.12")
            ++ str "z"))) :=
  ⟨by decide, by decide,
   c3_rewrite_all_matching (str "A") (str "2026.10.12") (str "x\n") (str "A1")
     (str "y\n") (str "A2") (str "z") (by decide) (by decide)
     (by decide) (by decide) (by decide)⟩

/-! ## Progress Detector : persisted state and `run`
(auto-detect-progress.py, lines 15-44, 46-78, 245-279, 317-349)

The state file `.progress-state.json` holds the hash map, the test-result
cache, the last-check timestamp and the accumulated completed-task list.
`run` calls `infer_completions` (which, through `detect_code_changes`,
updates every observed file's stored hash), optionally rewrites plan files
when `--auto` is given, then always sets `last_check`, extends
`completed_tasks` and saves the state. -/

/-- The persisted `.progress-state.json` record. -/
structure DetectorState where
  file_hashes : List (Str × Str)
  test_results : List (Str × Str)
  last_check : Option Str
  completed_tasks : List Str
deriving DecidableEq

/-- Python dict assignment `m[k] = v`: replace in place, else append. -/
def setKV (m : List (Str × Str)) (k v : Str) : List (Str × Str) :=
  if m.any (fun kv => kv.1 == k) then
    m.map (fun kv => if kv.1 == k then (k, v) else kv)
  else m ++ [(k, v)]

/-- Python dict lookup `m.get(k)`. -/
def getKV (m : List (Str × Str)) (k : Str) : Option Str :=
  (m.find? (fun kv => kv.1 == k)).map Prod.snd

/-- `changes[feature] = changes.get(feature, []); changes[feature].append(p)`. -/
def addChange (cs : List (Str × List Str)) (feature p : Str) :
    List (Str × List Str) :=
  if cs.any (fun kv => kv.1 == feature) then
    cs.map (fun kv => if kv.1 == feature then (kv.1, kv.2 ++ [p]) else kv)
  else cs ++ [(feature, [p])]

/-- `detect_code_changes` over the observed `(feature, path, current hash)`
triples of the existing pattern files, in iteration order: records a change
when a previous non-empty hash differs, and always stores the current hash. -/
def detect_code_changes (st : DetectorState)
    (obs : List (Str × Str × Str)) : List (Str × List Str) × DetectorState :=
  obs.foldl
    (fun acc o =>
      let old := getKV acc.2.file_hashes o.2.1
      let changes :=
        match old with
        | some oh => if oh ≠ [] ∧ oh ≠ o.2.2 then addChange acc.1 o.1 o.2.1
                     else acc.1
        | none => acc.1
      (changes,
       { acc.2 with file_hashes := setKV acc.2.file_hashes o.2.1 o.2.2 }))
    ([], st)

/-- Content of a named file in the modelled filesystem (missing reads give
the empty text; the scripts only read files produced by `glob`). -/
def lookupContent (fs : List PlanFile) (n : Str) : Str :=
  ((fs.find? (fun f => f.name == n)).map PlanFile.content).getD []

/-- Write a named file in the modelled filesystem. -/
def writeContent (fs : List PlanFile) (n c : Str) : List PlanFile :=
  fs.map (fun f => if f.name == n then ⟨n, c⟩ else f)

/-- `update_plan_files` (lines 245-279): for each completion, re-glob the
plan files, and for each one whose content matches the task pattern
(`re.search`), rewrite it on disk and record the update. -/
def update_plan_files (completions : List Completion) (dateDot : Str)
    (fs : List PlanFile) : List PlanFile × List (Str × Str × Nat) :=
  completions.foldl
    (fun acc comp =>
      let names :=
        ((acc.1.filter (fun f => matchStarPlan f.name)).map PlanFile.name)
        ++ ((acc.1.filter (fun f => matchFeatPlan f.name)).map PlanFile.name)
      names.foldl
        (fun acc2 n =>
          let content := lookupContent acc2.1 n
          if anyMatch (planMatchAt (comp.task.take 50) dateDot) content then
            (writeContent acc2.1 n
              (scanSub (planMatchAt (comp.task.take 50) dateDot) content),
             acc2.2 ++ [(n, comp.task, comp.confidence)])
          else acc2)
        acc)
    (fs, [])

/-- `run` (lines 317-349): infer completions (updating the stored hashes on
the way), rewrite plan files only when completions were found *and* the auto
flag is set, then always set `last_check`, extend `completed_tasks` and save
the state. -/
def runDetector (st : DetectorState) (obs : List (Str × Str × Str))
    (testResults : List Str) (devMode : Bool) (detected : List DetectedItem)
    (now dateDot : Str) (fs : List PlanFile) (auto : Bool) :
    DetectorState × List PlanFile × List (Str × Str × Nat) :=
  let cs := detect_code_changes st obs
  let completions := infer_completions cs.1 testResults devMode now detected
  let upd :=
    if completions ≠ [] ∧ auto then update_plan_files completions dateDot fs
    else (fs, [])
  ({ cs.2 with
      last_check := some now,
      completed_tasks := cs.2.completed_tasks ++ completions.map (·.task) },
   upd)

theorem detect_code_changes_hashes (st : DetectorState)
    (obs : List (Str × Str × Str)) :
    (detect_code_changes st obs).2.file_hashes
        = obs.foldl (fun m o => setKV m o.2.1 o.2.2) st.file_hashes
      ∧ (detect_code_changes st obs).2.test_results = st.test_results
      ∧ (detect_code_changes st obs).2.last_check = st.last_check
      ∧ (detect_code_changes st obs).2.completed_tasks
          = st.completed_tasks := by
  suffices h : ∀ (cs : List (Str × List Str)),
      (obs.foldl
        (fun acc o =>
          let old := getKV acc.2.file_hashes o.2.1
          let changes :=
            match old with
            | some oh => if oh ≠ [] ∧ oh ≠ o.2.2 then addChange acc.1 o.1 o.2.1
                         else acc.1
            | none => acc.1
          (changes,
           { acc.2 with file_hashes := setKV acc.2.file_hashes o.2.1 o.2.2 }))
        (cs, st)).2
      = { st with
          file_hashes :=
            obs.foldl (fun m o => setKV m o.2.1 o.2.2) st.file_hashes } by
    have h0 := h []
    refine ⟨?_, ?_, ?_, ?_⟩ <;>
      simp [detect_code_changes, h0]
  induction obs generalizing st with
  | nil => intro cs; rfl
  | cons o obs ih =>
    intro cs
    simp only [List.foldl_cons]
    have := ih { st with
      file_hashes := setKV st.file_hashes o.2.1 o.2.2 }
    simpa using this _

/-- C10: the state saved by `run` is the same whether or not `--auto` is
given — stored hashes are replaced by the observed ones, `last_check` is set
to the current time, and every detected task is appended to
`completed_tasks`; only the plan-file rewriting is gated by the flag (a
non-auto run performs no plan-file write). -/
theorem c10_state_saved_always (st : DetectorState)
    (obs : List (Str × Str × Str)) (testResults : List Str) (devMode : Bool)
    (detected : List DetectedItem) (now dateDot : Str) (fs : List PlanFile)
    (auto : Bool) :
    (runDetector st obs testResults devMode detected now dateDot fs auto).1
        = (runDetector st obs testResults devMode detected now dateDot fs
            true).1
    ∧ (runDetector st obs testResults devMode detected now dateDot fs
        auto).1.file_hashes
        = obs.foldl (fun m o => setKV m o.2.1 o.2.2) st.file_hashes
    ∧ (runDetector st obs testResults devMode detected now dateDot fs
        auto).1.last_check = some now
    ∧ (runDetector st obs testResults devMode detected now dateDot fs
        auto).1.completed_tasks
        = st.completed_tasks
          ++ (infer_completions (detect_code_changes st obs).1 testResults
              devMode now detected).map (·.task)
    ∧ (auto = false →
        (runDetector st obs testResults devMode detected now dateDot fs
          auto).2 = (fs, [])) := by
  have h := detect_code_changes_hashes st obs
  refine ⟨rfl, ?_, rfl, ?_, ?_⟩
  · simpa [runDetector] using h.1
  · simp [runDetector, h.2.2.2]
  · intro ha
    simp [runDetector, ha]

/-- Witness for C10 at a concrete input (discharging the auto-flag
hypothesis). -/
theorem c10_state_saved_always_witness :
    (false = false)
    ∧ (runDetector ⟨[], [], none, []⟩ [] [] false [] (str "T") (str "D") []
        false).2 = ([], []) :=
  ⟨rfl,
   (c10_state_saved_always ⟨[], [], none, []⟩ [] [] false [] (str "T")
      (str "D") [] false).2.2.2.2 rfl⟩

/-! ## Date Updater : `get_today_date` and the CLI
(auto-date-updater.py, lines 12-24 and 89-101) -/

/-- A calendar date (the value of `datetime.now()` as far as the script
consumes it). -/
structure Date where
  y : Nat
  m : Nat
  d : Nat
deriving DecidableEq

/-- `strftime` zero-padded numeric field of width `w` (`%Y`, `%m`, `%d`). -/
def padNum (w n : Nat) : Str :=
  List.replicate (w - (str (Nat.repr n)).length) '0' ++ str (Nat.repr n)

/-- `strftime('%B')` : the full month name. -/
def monthName : Nat → Str
  | 1 => str "January"
  | 2 => str "February"
  | 3 => str "March"
  | 4 => str "April"
  | 5 => str "May"
  | 6 => str "June"
  | 7 => str "July"
  | 8 => str "August"
  | 9 => str "September"
  | 10 => str "October"
  | 11 => str "November"
  | 12 => str "December"
  | _ => []

/-- `today.strftime('%Y년 %m월 %d일')`. -/
def krFormat (t : Date) : Str :=
  padNum 4 t.y ++ str "년 " ++ padNum 2 t.m ++ str "월 "
    ++ padNum 2 t.d ++ str "일"

/-- `today.strftime('%Y-%m-%d')`. -/
def isoFormat (t : Date) : Str :=
  padNum 4 t.y ++ str "-" ++ padNum 2 t.m ++ str "-" ++ padNum 2 t.d

/-- `today.strftime('%Y.%m.%d')`. -/
def dotFormat (t : Date) : Str :=
  padNum 4 t.y ++ str "." ++ padNum 2 t.m ++ str "." ++ padNum 2 t.d

/-- `today.strftime('%Y/%m/%d')`. -/
def slashFormat (t : Date) : Str :=
  padNum 4 t.y ++ str "/" ++ padNum 2 t.m ++ str "/" ++ padNum 2 t.d

/-- `today.strftime('%B %d, %Y')`. -/
def usFormat (t : Date) : Str :=
  monthName t.m ++ str " " ++ padNum 2 t.d ++ str ", " ++ padNum 4 t.y

/-- `get_today_date(format_type)` : the five formats, defaulting to `kr` for
an unknown key. -/
def get_today_date (fmt : Str) (t : Date) : Str :=
  if fmt == str "kr" then krFormat t
  else if fmt == str "iso" then isoFormat t
  else if fmt == str "dot" then dotFormat t
  else if fmt == str "slash" then slashFormat t
  else if fmt == str "us" then usFormat t
  else krFormat t

/-- The lines printed by the no-argument branch of `__main__`
(lines 90-97): usage plus the `kr`, `iso` and `dot` variants only. -/
def usageLines (argv0 : Str) (t : Date) : List Str :=
  [str "오늘 날짜:",
   str "  한국어: " ++ get_today_date (str "kr") t,
   str "  ISO: " ++ get_today_date (str "iso") t,
   str "  Dot: " ++ get_today_date (str "dot") t,
   str "\n사용법:",
   str "  " ++ argv0 ++ str " <file_path> - 파일의 날짜 필드 자동 업데이트",
   str "  " ++ argv0 ++ str " kr|iso|dot - 특정 형식으로 날짜 출력"]

/-- What an invocation of the CLI does. -/
inductive CliAction where
  | printLines (ls : List Str)
  | updateFile (path : Str)
deriving DecidableEq

/-- The `__main__` dispatch (lines 89-101): no argument prints usage and
three date variants; an argument among `kr|iso|dot|slash|us` prints that
format; anything else is treated as a file path. -/
def cliMain (argv0 : Str) (args : List Str) (t : Date) : CliAction :=
  match args with
  | [] => .printLines (usageLines argv0 t)
  | a :: _ =>
    if [str "kr", str "iso", str "dot", str "slash", str "us"].contains a then
      .printLines [get_today_date a t]
    else .updateFile a

theorem hasSub_here (p t : Str) : hasSub p (p ++ t) = true := by
  cases h : p ++ t with
  | nil =>
    have hp : p = [] := by cases p <;> simp_all
    subst hp
    simp [hasSub, startsWith]
  | cons c cs =>
    rw [hasSub, ← h, startsWith_append]
    simp

theorem hasSub_append_left (p a s : Str) (h : hasSub p s = true) :
    hasSub p (a ++ s) = true := by
  induction a with
  | nil => simpa using h
  | cons c a ih => simp [hasSub, ih]

/-- C7 counterexample: with no arguments the CLI prints usage and only the
`kr`, `iso`, `dot` variants — today's date in the `slash` format (and in the
`us` format) appears on no printed line, contradicting "all five format
variants". -/
theorem c7_cli_five_formats_counterexample :
    cliMain (str "auto-date-updater.py") [] ⟨2026, 10, 12⟩
      = .printLines (usageLines (str "auto-date-updater.py") ⟨2026, 10, 12⟩)
    ∧ get_today_date (str "slash") ⟨2026, 10, 12⟩ = str "2026/10/12"
    ∧ ((usageLines (str "auto-date-updater.py") ⟨2026, 10, 12⟩).any
        (fun l => hasSub (str "2026/10/12") l)) = false
    ∧ ((usageLines (str "auto-date-updater.py") ⟨2026, 10, 12⟩).any
        (fun l => hasSub (str "October 12, 2026") l)) = false := by
  refine ⟨rfl, by decide, by decide, by decide⟩

/-- C7 amended: with no arguments the CLI prints usage information and
today's date in the three variants `kr`, `iso`, `dot` (not five); with an
argument among `kr|iso|dot|slash|us` it prints today's date in exactly that
format. -/
theorem c7_cli_amended (t : Date) (argv0 : Str) :
    cliMain argv0 [] t = .printLines (usageLines argv0 t)
    ∧ ((usageLines argv0 t).any
        (fun l => hasSub (get_today_date (str "kr") t) l)) = true
    ∧ ((usageLines argv0 t).any
        (fun l => hasSub (get_today_date (str "iso") t) l)) = true
    ∧ ((usageLines argv0 t).any
        (fun l => hasSub (get_today_date (str "dot") t) l)) = true
    ∧ ((usageLines argv0 t).any (fun l => hasSub (str "사용법") l)) = true
    ∧ (∀ f, f ∈ [str "kr", str "iso", str "dot", str "slash", str "us"] →
        cliMain argv0 [f] t = .printLines [get_today_date f t]) := by
  have hline : ∀ (p a : Str), hasSub p (a ++ p) = true := by
    intro p a
    exact hasSub_append_left p a p (by simpa using hasSub_here p [])
  refine ⟨rfl, ?_, ?_, ?_, ?_, ?_⟩
  · simp only [usageLines, List.any_cons, List.any_nil, Bool.or_eq_true]
    exact Or.inr (Or.inl (hline _ _))
  · simp only [usageLines, List.any_cons, List.any_nil, Bool.or_eq_true]
    exact Or.inr (Or.inr (Or.inl (hline _ _)))
  · simp only [usageLines, List.any_cons, List.any_nil, Bool.or_eq_true]
    exact Or.inr (Or.inr (Or.inr (Or.inl (hline _ _))))
  · simp only [usageLines, List.any_cons, List.any_nil, Bool.or_eq_true]
    refine Or.inr (Or.inr (Or.inr (Or.inr (Or.inl ?_))))
    decide
  · intro f hf
    simp only [List.mem_cons, List.not_mem_nil, or_false] at hf
    rcases hf with rfl | rfl | rfl | rfl | rfl <;> rfl

/-- Witness for C7 (amended) at a concrete format argument. -/
theorem c7_cli_amended_witness :
    (str "iso") ∈ [str "kr", str "iso", str "dot", str "slash", str "us"]
    ∧ cliMain (str "auto-date-updater.py") [str "iso"] ⟨2026, 10, 12⟩
        = .printLines [get_today_date (str "iso") ⟨2026, 10, 12⟩] :=
  ⟨by decide,
   (c7_cli_amended ⟨2026, 10, 12⟩ (str "auto-date-updater.py")).2.2.2.2.2
     (str "iso") (by decide)⟩

/-! ## Date Updater : `update_markdown_date_fields`
(auto-date-updater.py, lines 44-87)

Eight `re.sub` calls are applied in order.  Building blocks for the exact
patterns used there: `\s*` (greedy whitespace, deterministic since every
following token starts with a non-space character), `\d{n}` (exactly `n`
ASCII digits), and `\d{1,2}` followed by a non-digit literal.

The replacement strings are Python *templates* (`'\\1' + date`): as in
CPython's `re` template parser, `\1` followed by two more digits is read as
a two-digit group reference, unless the three digits after the backslash are
all octal, in which case they denote an octal character escape.  Since every
date format starts with the four-digit year, `'\\1' + '20XX...'` parses as
the octal escape `\120` = `'P'` followed by the rest of the text, and a
reference to a nonexistent group raises `re.error`. -/

/-- Python `\s` (the whitespace characters relevant to `str`). -/
def isSpaceChar (c : Char) : Bool :=
  c == ' ' || c == '\t' || c == '\n' || c == '\r'
    || c == '\u000B' || c == '\u000C'

/-- Match a literal string. -/
def eatStr (l : Str) (s : Str) : Option Str :=
  if startsWith l s then some (s.drop l.length) else none

/-- Match a literal character. -/
def eatChar (c : Char) : Str → Option Str
  | [] => none
  | x :: s => if x == c then some s else none

/-- `\d{n}` : exactly `n` ASCII digits. -/
def eatDigits : Nat → Str → Option Str
  | 0, s => some s
  | _ + 1, [] => none
  | n + 1, c :: s => if c.isDigit then eatDigits n s else none

/-- `\s*` (greedy; never fails). -/
def eatWs (s : Str) : Str := s.dropWhile isSpaceChar

/-- `\d{1,2}` followed by the literal `lit` (a non-digit character, so the
greedy two-digit attempt needs no backtracking into a one-digit match). -/
def eatD12 (lit : Char) : Str → Option Str
  | [] => none
  | a :: rest =>
    if a.isDigit then
      match rest with
      | [] => none
      | b :: rest2 =>
        if b.isDigit then eatChar lit rest2
        else if b == lit then some rest2
        else none
    else none

/-- `\d{4}년\s*\d{1,2}월\s*\d{1,2}일` : the Korean date body. -/
def kdateAfter (s : Str) : Option Str := do
  let s1 ← eatDigits 4 s
  let s2 ← eatChar '년' s1
  let s3 := eatWs s2
  let s4 ← eatD12 '월' s3
  let s5 := eatWs s4
  eatD12 '일' s5

/-- An item of a parsed replacement template. -/
inductive TItem where
  | lit (c : Char)
  | group (n : Nat)
deriving DecidableEq

/-- Octal digit test. -/
def isOctChar (c : Char) : Bool := 48 ≤ c.toNat && c.toNat ≤ 55

/-- Decimal value of a digit character. -/
def digitVal (c : Char) : Nat := c.toNat - 48

/-- CPython's `parse_template` for the constructs appearing in this script:
`\` followed by a nonzero digit reads a second digit when available; if the
three digits after the `\` are all octal it is an octal character escape,
otherwise a (two-digit) group reference. -/
def parseTemplate : Str → List TItem
  | [] => []
  | '\\' :: c :: d :: e :: rest =>
    if c.isDigit && c != '0' then
      if d.isDigit then
        if isOctChar c && isOctChar d && isOctChar e then
          .lit (Char.ofNat (digitVal c * 64 + digitVal d * 8 + digitVal e))
            :: parseTemplate rest
        else .group (digitVal c * 10 + digitVal d) :: parseTemplate (e :: rest)
      else .group (digitVal c) :: parseTemplate (d :: e :: rest)
    else .lit '\\' :: parseTemplate (c :: d :: e :: rest)
  | '\\' :: c :: d :: [] =>
    if c.isDigit && c != '0' then
      if d.isDigit then [.group (digitVal c * 10 + digitVal d)]
      else .group (digitVal c) :: parseTemplate [d]
    else .lit '\\' :: parseTemplate [c, d]
  | '\\' :: c :: [] =>
    if c.isDigit && c != '0' then [.group (digitVal c)]
    else .lit '\\' :: parseTemplate [c]
  | c :: rest => .lit c :: parseTemplate rest

/-- Render a parsed template against the groups of a match; a reference to a
group the pattern does not define is `re.error` (`none`). -/
def renderT : List TItem → (Nat → Option Str) → Option Str
  | [], _ => some []
  | .lit c :: ts, g => (renderT ts g).map (fun r => c :: r)
  | .group n :: ts, g =>
    match g n with
    | none => none
    | some x => (renderT ts g).map (fun r => x ++ r)

/-- Template `f'\\1{today_kr}'` of the six Korean-label substitutions. -/
def krTemplate (t : Date) : Str := '\\' :: '1' :: krFormat t

/-- Template `f'\\1{today_dot}\\3'` of the `### 오늘 (...)` substitution. -/
def dotTemplate (t : Date) : Str := '\\' :: '1' :: (dotFormat t ++ ['\\', '3'])

/-- Template `f'\\1{today_iso}'` of the `Date:` substitution. -/
def isoTemplate (t : Date) : Str := '\\' :: '1' :: isoFormat t

/-- Rendered Korean replacement.  The template starts `\1` + year digits, so
any group reference read from it has two digits and is never a group of the
pattern (which has two groups); the groups function can therefore answer
`none` throughout. -/
def krRepl (t : Date) : Option Str :=
  renderT (parseTemplate (krTemplate t)) (fun _ => none)

/-- Rendered dot replacement; `\3` at the end references group 3, which the
`### 오늘` pattern fixes to the literal `)`. -/
def dotRepl (t : Date) : Option Str :=
  renderT (parseTemplate (dotTemplate t)) (fun n => if n = 3 then some (str ")") else none)

/-- Rendered ISO replacement. -/
def isoRepl (t : Date) : Option Str :=
  renderT (parseTemplate (isoTemplate t)) (fun _ => none)

/-- Matcher of the six unanchored Korean-label patterns
`(LABEL\s*)(\d{4}년\s*\d{1,2}월\s*\d{1,2}일)` at the head of `s`:
returns the number of characters the match consumes. -/
def matchKDate (label : Str) (s : Str) : Option Nat := do
  let s1 ← eatStr label s
  let rest ← kdateAfter (eatWs s1)
  return s.length - rest.length

/-- Matcher of the anchored pattern
`(^-\s*\*\*완료일\*\*:\s*)(\d{4}년\s*\d{1,2}월\s*\d{1,2}일)`; without
`re.MULTILINE` the `^` only matches at the start of the whole text. -/
def matchP3 (s : Str) : Option Nat := do
  let s1 ← eatChar '-' s
  let s2 ← eatStr (str "**완료일**:") (eatWs s1)
  let rest ← kdateAfter (eatWs s2)
  return s.length - rest.length

/-- Matcher of `(###\s*오늘\s*\()(\d{4}\.\d{2}\.\d{2})(\))`. -/
def matchP7 (s : Str) : Option Nat := do
  let s1 ← eatStr (str "###") s
  let s2 ← eatStr (str "오늘") (eatWs s1)
  let s3 ← eatChar '(' (eatWs s2)
  let s4 ← eatDigits 4 s3
  let s5 ← eatChar '.' s4
  let s6 ← eatDigits 2 s5
  let s7 ← eatChar '.' s6
  let s8 ← eatDigits 2 s7
  let rest ← eatChar ')' s8
  return s.length - rest.length

/-- Matcher of `(Date:\s*)(\d{4}-\d{2}-\d{2})`. -/
def matchP8 (s : Str) : Option Nat := do
  let s1 ← eatStr (str "Date:") s
  let s2 ← eatDigits 4 (eatWs s1)
  let s3 ← eatChar '-' s2
  let s4 ← eatDigits 2 s3
  let s5 ← eatChar '-' s4
  let rest ← eatDigits 2 s5
  return s.length - rest.length

/-- One entry of the `patterns` list: whether the pattern is `^`-anchored,
its matcher, and its rendered replacement (`none` = `re.error` when the
template references a nonexistent group). -/
structure DatePattern where
  anchored : Bool
  matcher : Str → Option Nat
  repl : Option Str

/-- An unanchored `re.sub`: replace every non-overlapping match. -/
def subUnanchored (m : Str → Option Nat) (r : Str) (content : Str) : Str :=
  scanSub (fun s => (m s).map (fun k => (r, k))) content

/-- An `^`-anchored `re.sub` without `re.MULTILINE`: at most the match at
position 0 is replaced. -/
def subAnchored (m : Str → Option Nat) (r : Str) (content : Str) : Str :=
  match m content with
  | some k => r ++ content.drop k
  | none => content

/-- The `patterns` list of `update_markdown_date_fields`, in source order. -/
def datePatterns (t : Date) : List DatePattern :=
  [⟨false, matchKDate (str "**작성일**:"), krRepl t⟩,
   ⟨false, matchKDate (str "**작성 일자**:"), krRepl t⟩,
   ⟨true, matchP3, krRepl t⟩,
   ⟨false, matchKDate (str "**수정일**:"), krRepl t⟩,
   ⟨false, matchKDate (str "**보류 일자**:"), krRepl t⟩,
   ⟨false, matchKDate (str "**취소 일자**:"), krRepl t⟩,
   ⟨false, matchP7, dotRepl t⟩,
   ⟨false, matchP8, isoRepl t⟩]

/-- One `re.sub` call of the loop: `none` models the `re.error` raised while
parsing an invalid replacement template. -/
def applyPattern (p : DatePattern) (content : Str) : Option Str :=
  match p.repl with
  | none => none
  | some r =>
    some (if p.anchored then subAnchored p.matcher r content
          else subUnanchored p.matcher r content)

/-- `update_markdown_date_fields` on the file content: apply the eight
substitutions in order, tracking whether any of them changed the text; the
file is rewritten (and "updated" reported) iff the flag is `true`, otherwise
the script reports that there was no date field to update. -/
def update_markdown_date_fields (t : Date) (content : Str) :
    Option (Str × Bool) :=
  (datePatterns t).foldl
    (fun acc p =>
      acc.bind (fun cu =>
        (applyPattern p cu.1).map (fun nc =>
          if nc ≠ cu.1 then (nc, true) else (cu.1, cu.2))))
    (some (content, false))

/-- Well-formedness of a date's decimal representations: the year prints as
four digits starting `20`, month and day print as one or two digits. -/
def dateWF (t : Date) : Prop :=
  (str (Nat.repr t.y)).length = 4
  ∧ (str (Nat.repr t.y)).take 2 = str "20"
  ∧ (∀ c ∈ str (Nat.repr t.y), c.isDigit = true)
  ∧ 1 ≤ (str (Nat.repr t.m)).length ∧ (str (Nat.repr t.m)).length ≤ 2
  ∧ (∀ c ∈ str (Nat.repr t.m), c.isDigit = true)
  ∧ 1 ≤ (str (Nat.repr t.d)).length ∧ (str (Nat.repr t.d)).length ≤ 2
  ∧ (∀ c ∈ str (Nat.repr t.d), c.isDigit = true)

instance (t : Date) : Decidable (dateWF t) := by
  unfold dateWF
  infer_instance

theorem not_space_of_digit {c : Char} (h : c.isDigit = true) :
    isSpaceChar c = false := by
  by_contra hns
  rw [Bool.not_eq_false] at hns
  unfold isSpaceChar at hns
  simp only [Bool.or_eq_true, beq_iff_eq] at hns
  rcases hns with ((((rfl | rfl) | rfl) | rfl) | rfl) | rfl <;>
    exact absurd h (by decide)

theorem digit_ne_backslash {c : Char} (h : c.isDigit = true) : c ≠ '\\' := by
  intro hc
  subst hc
  exact absurd h (by decide)

theorem eatStr_exact (l rest : Str) : eatStr l (l ++ rest) = some rest := by
  simp [eatStr, startsWith_append, List.drop_left]

theorem eatChar_exact (c : Char) (rest : Str) :
    eatChar c (c :: rest) = some rest := by
  simp [eatChar]

theorem eatDigits_exact (n : Nat) (ds rest : Str) (hl : ds.length = n)
    (hd : ∀ c ∈ ds, c.isDigit = true) :
    eatDigits n (ds ++ rest) = some rest := by
  induction n generalizing ds with
  | zero =>
    have : ds = [] := List.length_eq_zero.mp hl
    subst this
    rfl
  | succ n ih =>
    cases ds with
    | nil => simp at hl
    | cons c cs =>
      have hc : c.isDigit = true := hd c (List.mem_cons_self c cs)
      simp only [List.cons_append, eatDigits, hc, if_true]
      exact ih cs (by simpa using hl)
        (fun x hx => hd x (List.mem_cons_of_mem c hx))

theorem eatWs_space (s : Str) : eatWs (' ' :: s) = eatWs s := by
  simp [eatWs, List.dropWhile_cons, isSpaceChar]

theorem eatWs_not_space {c : Char} (s : Str) (hc : isSpaceChar c = false) :
    eatWs (c :: s) = c :: s := by
  simp [eatWs, List.dropWhile_cons, hc]

theorem eatD12_exact2 {a b : Char} (lit : Char) (rest : Str)
    (ha : a.isDigit = true) (hb : b.isDigit = true) :
    eatD12 lit (a :: b :: lit :: rest) = some rest := by
  simp [eatD12, ha, hb, eatChar]

theorem padNum2_spec (n : Nat) (h1 : 1 ≤ (str (Nat.repr n)).length)
    (h2 : (str (Nat.repr n)).length ≤ 2)
    (hd : ∀ c ∈ str (Nat.repr n), c.isDigit = true) :
    (padNum 2 n).length = 2 ∧ (∀ c ∈ padNum 2 n, c.isDigit = true) := by
  unfold padNum
  constructor
  · simp only [List.length_append, List.length_replicate]
    omega
  · intro c hc
    rcases List.mem_append.mp hc with h | h
    · have := List.eq_of_mem_replicate h
      subst this
      decide
    · exact hd c h

theorem padNum4_year (y : Nat) (hl : (str (Nat.repr y)).length = 4)
    (ht : (str (Nat.repr y)).take 2 = str "20") :
    padNum 4 y = '2' :: '0' :: (str (Nat.repr y)).drop 2 := by
  unfold padNum
  rw [hl]
  simp only [Nat.sub_self, List.replicate_zero, List.nil_append]
  conv_lhs => rw [← List.take_append_drop 2 (str (Nat.repr y))]
  rw [ht]
  rfl

theorem parseTemplate_lits_append (s u : Str) (h : ∀ c ∈ s, c ≠ '\\') :
    parseTemplate (s ++ u) = s.map TItem.lit ++ parseTemplate u := by
  induction s with
  | nil => rfl
  | cons c cs ih =>
    have hc : c ≠ '\\' := h c (List.mem_cons_self c cs)
    have ih' := ih (fun x hx => h x (List.mem_cons_of_mem c hx))
    cases cs with
    | nil =>
      cases u with
      | nil => simp [parseTemplate, hc]
      | cons u1 us =>
        cases us with
        | nil => simp [parseTemplate, hc]
        | cons u2 us2 =>
          cases us2 with
          | nil => simp [parseTemplate, hc]
          | cons u3 us3 => simp [parseTemplate, hc]
    | cons c2 cs2 =>
      have step : parseTemplate ((c :: c2 :: cs2) ++ u)
          = TItem.lit c :: parseTemplate ((c2 :: cs2) ++ u) := by
        cases cs2 with
        | nil =>
          cases u with
          | nil => simp [parseTemplate, hc]
          | cons u1 us =>
            cases us with
            | nil => simp [parseTemplate, hc]
            | cons u2 us2 => simp [parseTemplate, hc]
        | cons c3 cs3 => simp [parseTemplate, hc]
      rw [step, ih']
      rfl

theorem parseTemplate_lits (s : Str) (h : ∀ c ∈ s, c ≠ '\\') :
    parseTemplate s = s.map TItem.lit := by
  have := parseTemplate_lits_append s [] h
  simpa [parseTemplate] using this

theorem renderT_lits_append (s : Str) (ts : List TItem)
    (g : Nat → Option Str) :
    renderT (s.map TItem.lit ++ ts) g = (renderT ts g).map (fun r => s ++ r)
    := by
  induction s with
  | nil => simp [Option.map_id']
  | cons c cs ih =>
    show renderT (TItem.lit c :: (cs.map TItem.lit ++ ts)) g = _
    rw [renderT, ih]
    cases renderT ts g <;> rfl

theorem padNum_digits (w n : Nat)
    (hd : ∀ c ∈ str (Nat.repr n), c.isDigit = true) :
    ∀ c ∈ padNum w n, c.isDigit = true := by
  intro c hc
  rcases List.mem_append.mp hc with h | h
  · have := List.eq_of_mem_replicate h
    subst this
    decide
  · exact hd c h

theorem mem_str_ne_bs {s : String} {c : Char}
    (hall : ∀ x ∈ str s, x ≠ '\\') (hc : c ∈ str s) : c ≠ '\\' :=
  hall c hc

theorem ne_bs_of_mem_pair {c a b : Char} (ha : a ≠ '\\') (hb : b ≠ '\\')
    (hc : c ∈ [a, b]) : c ≠ '\\' := by
  rcases List.mem_cons.mp hc with rfl | h
  · exact ha
  · rcases List.mem_singleton.mp h with rfl
    exact hb

theorem ne_bs_of_mem_single {c a : Char} (ha : a ≠ '\\')
    (hc : c ∈ [a]) : c ≠ '\\' := by
  rcases List.mem_singleton.mp hc with rfl
  exact ha

theorem mem_krFormat_ne_bs (t : Date) (h : dateWF t) :
    ∀ c ∈ krFormat t, c ≠ '\\' := by
  obtain ⟨hy4, hy20, hyd, hm1, hm2, hmd, hd1, hd2, hdd⟩ := h
  intro c hc
  unfold krFormat at hc
  simp only [List.mem_append] at hc
  rcases hc with ((((hp | hk) | hp2) | hk2) | hp3) | hk3
  · exact digit_ne_backslash (padNum_digits 4 t.y hyd c hp)
  · rw [show str "년 " = ['년', ' '] from rfl] at hk
    exact ne_bs_of_mem_pair (by decide) (by decide) hk
  · exact digit_ne_backslash (padNum_digits 2 t.m hmd c hp2)
  · rw [show str "월 " = ['월', ' '] from rfl] at hk2
    exact ne_bs_of_mem_pair (by decide) (by decide) hk2
  · exact digit_ne_backslash (padNum_digits 2 t.d hdd c hp3)
  · rw [show str "일" = ['일'] from rfl] at hk3
    exact ne_bs_of_mem_single (by decide) hk3

theorem mem_dotFormat_ne_bs (t : Date) (h : dateWF t) :
    ∀ c ∈ dotFormat t, c ≠ '\\' := by
  obtain ⟨hy4, hy20, hyd, hm1, hm2, hmd, hd1, hd2, hdd⟩ := h
  intro c hc
  unfold dotFormat at hc
  simp only [List.mem_append] at hc
  rcases hc with ((((hp | hk) | hp2) | hk2) | hp3)
  · exact digit_ne_backslash (padNum_digits 4 t.y hyd c hp)
  · rw [show str "." = ['.'] from rfl] at hk
    exact ne_bs_of_mem_single (by decide) hk
  · exact digit_ne_backslash (padNum_digits 2 t.m hmd c hp2)
  · rw [show str "." = ['.'] from rfl] at hk2
    exact ne_bs_of_mem_single (by decide) hk2
  · exact digit_ne_backslash (padNum_digits 2 t.d hdd c hp3)

theorem mem_isoFormat_ne_bs (t : Date) (h : dateWF t) :
    ∀ c ∈ isoFormat t, c ≠ '\\' := by
  obtain ⟨hy4, hy20, hyd, hm1, hm2, hmd, hd1, hd2, hdd⟩ := h
  intro c hc
  unfold isoFormat at hc
  simp only [List.mem_append] at hc
  rcases hc with ((((hp | hk) | hp2) | hk2) | hp3)
  · exact digit_ne_backslash (padNum_digits 4 t.y hyd c hp)
  · rw [show str "-" = ['-'] from rfl] at hk
    exact ne_bs_of_mem_single (by decide) hk
  · exact digit_ne_backslash (padNum_digits 2 t.m hmd c hp2)
  · rw [show str "-" = ['-'] from rfl] at hk2
    exact ne_bs_of_mem_single (by decide) hk2
  · exact digit_ne_backslash (padNum_digits 2 t.d hdd c hp3)

theorem format_head20 (t : Date) (h : dateWF t) (rest : Str) :
    padNum 4 t.y ++ rest
      = '2' :: '0' :: ((str (Nat.repr t.y)).drop 2 ++ rest) := by
  rw [padNum4_year t.y h.1 h.2.1]
  rfl

theorem krFormat_head (t : Date) (h : dateWF t) :
    krFormat t = '2' :: '0' :: (krFormat t).drop 2 := by
  unfold krFormat
  rw [List.append_assoc, List.append_assoc, List.append_assoc,
    List.append_assoc, format_head20 t h]
  rfl

theorem dotFormat_head (t : Date) (h : dateWF t) :
    dotFormat t = '2' :: '0' :: (dotFormat t).drop 2 := by
  unfold dotFormat
  rw [List.append_assoc, List.append_assoc, List.append_assoc,
    format_head20 t h]
  rfl

theorem isoFormat_head (t : Date) (h : dateWF t) :
    isoFormat t = '2' :: '0' :: (isoFormat t).drop 2 := by
  unfold isoFormat
  rw [List.append_assoc, List.append_assoc, List.append_assoc,
    format_head20 t h]
  rfl

theorem krRepl_eq (t : Date) (h : dateWF t) :
    krRepl t = some ('P' :: (krFormat t).drop 2) := by
  have hnb : ∀ c ∈ (krFormat t).drop 2, c ≠ '\\' := by
    intro c hc
    exact mem_krFormat_ne_bs t h c (List.mem_of_mem_drop hc)
  have hstep : parseTemplate (krTemplate t)
      = TItem.lit 'P' :: parseTemplate ((krFormat t).drop 2) := by
    rw [krTemplate, krFormat_head t h]
    rfl
  rw [krRepl, hstep, parseTemplate_lits _ hnb]
  have heq : TItem.lit 'P' :: ((krFormat t).drop 2).map TItem.lit
      = ('P' :: (krFormat t).drop 2).map TItem.lit := rfl
  rw [heq]
  have := renderT_lits_append ('P' :: (krFormat t).drop 2) [] (fun _ => none)
  simpa [renderT] using this

theorem isoRepl_eq (t : Date) (h : dateWF t) :
    isoRepl t = some ('P' :: (isoFormat t).drop 2) := by
  have hnb : ∀ c ∈ (isoFormat t).drop 2, c ≠ '\\' := by
    intro c hc
    exact mem_isoFormat_ne_bs t h c (List.mem_of_mem_drop hc)
  have hstep : parseTemplate (isoTemplate t)
      = TItem.lit 'P' :: parseTemplate ((isoFormat t).drop 2) := by
    rw [isoTemplate, isoFormat_head t h]
    rfl
  rw [isoRepl, hstep, parseTemplate_lits _ hnb]
  have heq : TItem.lit 'P' :: ((isoFormat t).drop 2).map TItem.lit
      = ('P' :: (isoFormat t).drop 2).map TItem.lit := rfl
  rw [heq]
  have := renderT_lits_append ('P' :: (isoFormat t).drop 2) [] (fun _ => none)
  simpa [renderT] using this

theorem dotRepl_eq (t : Date) (h : dateWF t) :
    dotRepl t = some ('P' :: ((dotFormat t).drop 2 ++ str ")")) := by
  have hnb : ∀ c ∈ (dotFormat t).drop 2, c ≠ '\\' := by
    intro c hc
    exact mem_dotFormat_ne_bs t h c (List.mem_of_mem_drop hc)
  have hstep : parseTemplate (dotTemplate t)
      = TItem.lit 'P'
        :: parseTemplate ((dotFormat t).drop 2 ++ ['\\', '3']) := by
    rw [dotTemplate]
    conv_lhs => rw [dotFormat_head t h]
    rfl
  have hsplit : parseTemplate ((dotFormat t).drop 2 ++ ['\\', '3'])
      = ((dotFormat t).drop 2).map TItem.lit ++ [TItem.group 3] := by
    rw [parseTemplate_lits_append _ _ hnb]
    rfl
  rw [dotRepl, hstep, hsplit]
  have heq : TItem.lit 'P'
        :: (((dotFormat t).drop 2).map TItem.lit ++ [TItem.group 3])
      = ('P' :: (dotFormat t).drop 2).map TItem.lit ++ [TItem.group 3] := rfl
  rw [heq, renderT_lits_append]
  rfl

theorem kdateAfter_exact (y4 m2 d2 B : Str)
    (hy : y4.length = 4) (hyd : ∀ c ∈ y4, c.isDigit = true)
    (hm : m2.length = 2) (hmd : ∀ c ∈ m2, c.isDigit = true)
    (hd : d2.length = 2) (hdd : ∀ c ∈ d2, c.isDigit = true) :
    kdateAfter (y4 ++ '년' :: ' ' :: (m2 ++ '월' :: ' ' :: (d2 ++ '일' :: B)))
      = some B := by
  obtain ⟨a, b, rfl⟩ := List.length_eq_two.mp hm
  obtain ⟨e, f, rfl⟩ := List.length_eq_two.mp hd
  have ha : a.isDigit = true := hmd a (by simp)
  have hb : b.isDigit = true := hmd b (by simp)
  have he : e.isDigit = true := hdd e (by simp)
  have hf : f.isDigit = true := hdd f (by simp)
  have e1 := eatDigits_exact 4 y4
    ('년' :: ' ' :: ([a, b] ++ '월' :: ' ' :: ([e, f] ++ '일' :: B))) hy hyd
  unfold kdateAfter
  rw [e1]
  simp only [Option.bind_eq_bind, Option.some_bind, List.cons_append,
    List.nil_append, eatChar_exact, eatWs_space, eatWs_not_space,
    not_space_of_digit, ha, hb, he, hf, eatD12_exact2]

theorem matchKDate_exact (label : Str) (t : Date) (B : Str) (h : dateWF t) :
    matchKDate label (label ++ ' ' :: (krFormat t ++ B))
      = some ((label ++ ' ' :: krFormat t).length) := by
  obtain ⟨hy4, hy20, hyd, hm1, hm2, hmd, hd1, hd2, hdd⟩ := h
  have hpm := padNum2_spec t.m hm1 hm2 hmd
  have hpd := padNum2_spec t.d hd1 hd2 hdd
  have hy4l : (padNum 4 t.y).length = 4 := by
    rw [padNum4_year t.y hy4 hy20]
    simp [hy4]
  have hy4d : ∀ c ∈ padNum 4 t.y, c.isDigit = true := padNum_digits 4 t.y hyd
  have hshape : krFormat t ++ B
      = padNum 4 t.y ++ '년' :: ' ' :: (padNum 2 t.m ++ '월' :: ' '
          :: (padNum 2 t.d ++ '일' :: B)) := by
    unfold krFormat
    rw [show str "년 " = ['년', ' '] from rfl,
      show str "월 " = ['월', ' '] from rfl,
      show str "일" = ['일'] from rfl]
    simp [List.append_assoc]
  have hkd : kdateAfter (krFormat t ++ B) = some B := by
    rw [hshape]
    exact kdateAfter_exact _ _ _ _ hy4l hy4d hpm.1 hpm.2 hpd.1 hpd.2
  have hws : eatWs (krFormat t ++ B) = krFormat t ++ B := by
    conv_lhs => rw [hshape, padNum4_year t.y hy4 hy20]
    rw [show ('2' :: '0' :: (str (Nat.repr t.y)).drop 2)
          ++ ('년' :: ' ' :: (padNum 2 t.m ++ '월' :: ' '
            :: (padNum 2 t.d ++ '일' :: B)))
        = '2' :: ('0' :: (str (Nat.repr t.y)).drop 2
          ++ ('년' :: ' ' :: (padNum 2 t.m ++ '월' :: ' '
            :: (padNum 2 t.d ++ '일' :: B)))) from rfl]
    rw [eatWs_not_space _ (by decide)]
    rw [show '2' :: ('0' :: (str (Nat.repr t.y)).drop 2
          ++ ('년' :: ' ' :: (padNum 2 t.m ++ '월' :: ' '
            :: (padNum 2 t.d ++ '일' :: B))))
        = ('2' :: '0' :: (str (Nat.repr t.y)).drop 2)
          ++ ('년' :: ' ' :: (padNum 2 t.m ++ '월' :: ' '
            :: (padNum 2 t.d ++ '일' :: B))) from rfl]
    rw [← padNum4_year t.y hy4 hy20, ← hshape]
  unfold matchKDate
  rw [eatStr_exact]
  simp only [Option.bind_eq_bind, Option.some_bind]
  rw [eatWs_space, hws, hkd]
  simp only [Option.some_bind]
  congr 1
  simp only [List.length_append, List.length_cons]
  omega

theorem matchP3_exact (t : Date) (B : Str) (h : dateWF t) :
    matchP3 ('-' :: ' ' :: (str "**완료일**:" ++ ' ' :: (krFormat t ++ B)))
      = some (('-' :: ' ' :: (str "**완료일**:" ++ ' ' :: krFormat t)).length)
      := by
  obtain ⟨hy4, hy20, hyd, hm1, hm2, hmd, hd1, hd2, hdd⟩ := h
  have hpm := padNum2_spec t.m hm1 hm2 hmd
  have hpd := padNum2_spec t.d hd1 hd2 hdd
  have hy4l : (padNum 4 t.y).length = 4 := by
    rw [padNum4_year t.y hy4 hy20]
    simp [hy4]
  have hy4d : ∀ c ∈ padNum 4 t.y, c.isDigit = true := padNum_digits 4 t.y hyd
  have hshape : krFormat t ++ B
      = padNum 4 t.y ++ '년' :: ' ' :: (padNum 2 t.m ++ '월' :: ' '
          :: (padNum 2 t.d ++ '일' :: B)) := by
    unfold krFormat
    rw [show str "년 " = ['년', ' '] from rfl,
      show str "월 " = ['월', ' '] from rfl,
      show str "일" = ['일'] from rfl]
    simp [List.append_assoc]
  have hkd : kdateAfter (krFormat t ++ B) = some B := by
    rw [hshape]
    exact kdateAfter_exact _ _ _ _ hy4l hy4d hpm.1 hpm.2 hpd.1 hpd.2
  have hws : eatWs (krFormat t ++ B) = krFormat t ++ B := by
    conv_lhs => rw [hshape, padNum4_year t.y hy4 hy20]
    rw [show ('2' :: '0' :: (str (Nat.repr t.y)).drop 2)
          ++ ('년' :: ' ' :: (padNum 2 t.m ++ '월' :: ' '
            :: (padNum 2 t.d ++ '일' :: B)))
        = '2' :: ('0' :: (str (Nat.repr t.y)).drop 2
          ++ ('년' :: ' ' :: (padNum 2 t.m ++ '월' :: ' '
            :: (padNum 2 t.d ++ '일' :: B)))) from rfl]
    rw [eatWs_not_space _ (by decide)]
    rw [show '2' :: ('0' :: (str (Nat.repr t.y)).drop 2
          ++ ('년' :: ' ' :: (padNum 2 t.m ++ '월' :: ' '
            :: (padNum 2 t.d ++ '일' :: B))))
        = ('2' :: '0' :: (str (Nat.repr t.y)).drop 2)
          ++ ('년' :: ' ' :: (padNum 2 t.m ++ '월' :: ' '
            :: (padNum 2 t.d ++ '일' :: B))) from rfl]
    rw [← padNum4_year t.y hy4 hy20, ← hshape]
  unfold matchP3
  rw [eatChar_exact]
  simp only [Option.bind_eq_bind, Option.some_bind]
  rw [eatWs_space]
  rw [show str "**완료일**:" ++ ' ' :: (krFormat t ++ B)
      = '*' :: (str "*완료일**:" ++ ' ' :: (krFormat t ++ B)) from rfl]
  rw [eatWs_not_space _ (by decide)]
  rw [show '*' :: (str "*완료일**:" ++ ' ' :: (krFormat t ++ B))
      = str "**완료일**:" ++ ' ' :: (krFormat t ++ B) from rfl]
  rw [eatStr_exact]
  simp only [Option.some_bind]
  rw [eatWs_space, hws, hkd]
  simp only [Option.some_bind]
  congr 1
  simp only [List.length_append, List.length_cons]
  omega

theorem matchP7_exact (t : Date) (B : Str) (h : dateWF t) :
    matchP7 (str "### 오늘 (" ++ (dotFormat t ++ ')' :: B))
      = some ((str "### 오늘 (" ++ dotFormat t ++ [')']).length) := by
  obtain ⟨hy4, hy20, hyd, hm1, hm2, hmd, hd1, hd2, hdd⟩ := h
  have hpm := padNum2_spec t.m hm1 hm2 hmd
  have hpd := padNum2_spec t.d hd1 hd2 hdd
  have hy4l : (padNum 4 t.y).length = 4 := by
    rw [padNum4_year t.y hy4 hy20]
    simp [hy4]
  have hy4d : ∀ c ∈ padNum 4 t.y, c.isDigit = true := padNum_digits 4 t.y hyd
  have hshape : dotFormat t ++ ')' :: B
      = padNum 4 t.y ++ '.' :: (padNum 2 t.m ++ '.'
          :: (padNum 2 t.d ++ ')' :: B)) := by
    unfold dotFormat
    rw [show str "." = ['.'] from rfl]
    simp [List.append_assoc]
  rw [show str "### 오늘 (" ++ (dotFormat t ++ ')' :: B)
      = str "###" ++ (' ' :: (str "오늘" ++ ' '
          :: ('(' :: (dotFormat t ++ ')' :: B)))) from rfl]
  unfold matchP7
  rw [eatStr_exact]
  simp only [Option.bind_eq_bind, Option.some_bind]
  rw [eatWs_space]
  rw [show str "오늘" ++ ' ' :: ('(' :: (dotFormat t ++ ')' :: B))
      = '오' :: (str "늘" ++ ' ' :: ('(' :: (dotFormat t ++ ')' :: B)))
      from rfl]
  rw [eatWs_not_space _ (by decide)]
  rw [show '오' :: (str "늘" ++ ' ' :: ('(' :: (dotFormat t ++ ')' :: B)))
      = str "오늘" ++ ' ' :: ('(' :: (dotFormat t ++ ')' :: B)) from rfl]
  rw [eatStr_exact]
  simp only [Option.some_bind]
  rw [eatWs_space]
  rw [show eatWs ('(' :: (dotFormat t ++ ')' :: B))
      = '(' :: (dotFormat t ++ ')' :: B) from eatWs_not_space _ (by decide)]
  rw [eatChar_exact]
  simp only [Option.some_bind]
  rw [hshape, eatDigits_exact 4 (padNum 4 t.y) _ hy4l hy4d]
  simp only [Option.some_bind]
  rw [eatChar_exact]
  simp only [Option.some_bind]
  rw [eatDigits_exact 2 (padNum 2 t.m) _ hpm.1 hpm.2]
  simp only [Option.some_bind]
  rw [eatChar_exact]
  simp only [Option.some_bind]
  rw [eatDigits_exact 2 (padNum 2 t.d) _ hpd.1 hpd.2]
  simp only [Option.some_bind]
  rw [eatChar_exact]
  simp only [Option.some_bind]
  congr 1
  simp only [List.length_append, List.length_cons, List.length_nil]
  have l1 : (str "### 오늘 (").length = 8 := rfl
  have l2 : (str "###").length = 3 := rfl
  have l3 : (str "오늘").length = 2 := rfl
  have ld : (dotFormat t).length = 10 := by
    unfold dotFormat
    simp [List.length_append, hy4l, hpm.1, hpd.1, str]
  omega

theorem matchP8_exact (t : Date) (B : Str) (h : dateWF t) :
    matchP8 (str "Date: " ++ (isoFormat t ++ B))
      = some ((str "Date: " ++ isoFormat t).length) := by
  obtain ⟨hy4, hy20, hyd, hm1, hm2, hmd, hd1, hd2, hdd⟩ := h
  have hpm := padNum2_spec t.m hm1 hm2 hmd
  have hpd := padNum2_spec t.d hd1 hd2 hdd
  have hy4l : (padNum 4 t.y).length = 4 := by
    rw [padNum4_year t.y hy4 hy20]
    simp [hy4]
  have hy4d : ∀ c ∈ padNum 4 t.y, c.isDigit = true := padNum_digits 4 t.y hyd
  have hshape : isoFormat t ++ B
      = padNum 4 t.y ++ '-' :: (padNum 2 t.m ++ '-'
          :: (padNum 2 t.d ++ B)) := by
    unfold isoFormat
    rw [show str "-" = ['-'] from rfl]
    simp [List.append_assoc]
  rw [show str "Date: " ++ (isoFormat t ++ B)
      = str "Date:" ++ (' ' :: (isoFormat t ++ B)) from rfl]
  unfold matchP8
  rw [eatStr_exact]
  simp only [Option.bind_eq_bind, Option.some_bind]
  rw [eatWs_space]
  have hws : eatWs (isoFormat t ++ B) = isoFormat t ++ B := by
    conv_lhs => rw [hshape, padNum4_year t.y hy4 hy20]
    rw [show ('2' :: '0' :: (str (Nat.repr t.y)).drop 2)
          ++ ('-' :: (padNum 2 t.m ++ '-' :: (padNum 2 t.d ++ B)))
        = '2' :: ('0' :: (str (Nat.repr t.y)).drop 2
          ++ ('-' :: (padNum 2 t.m ++ '-' :: (padNum 2 t.d ++ B))))
        from rfl]
    rw [eatWs_not_space _ (by decide)]
    rw [show '2' :: ('0' :: (str (Nat.repr t.y)).drop 2
          ++ ('-' :: (padNum 2 t.m ++ '-' :: (padNum 2 t.d ++ B))))
        = ('2' :: '0' :: (str (Nat.repr t.y)).drop 2)
          ++ ('-' :: (padNum 2 t.m ++ '-' :: (padNum 2 t.d ++ B)))
        from rfl]
    rw [← padNum4_year t.y hy4 hy20, ← hshape]
  rw [hws, hshape, eatDigits_exact 4 (padNum 4 t.y) _ hy4l hy4d]
  simp only [Option.some_bind]
  rw [eatChar_exact]
  simp only [Option.some_bind]
  rw [eatDigits_exact 2 (padNum 2 t.m) _ hpm.1 hpm.2]
  simp only [Option.some_bind]
  rw [eatChar_exact]
  simp only [Option.some_bind]
  rw [eatDigits_exact 2 (padNum 2 t.d) _ hpd.1 hpd.2]
  simp only [Option.some_bind]
  congr 1
  simp only [List.length_append, List.length_cons]
  have l1 : (str "Date: ").length = 6 := rfl
  have l2 : (str "Date:").length = 5 := rfl
  have ld : (isoFormat t).length = 10 := by
    unfold isoFormat
    simp [List.length_append, hy4l, hpm.1, hpd.1, str]
  omega

theorem matchKDate_nil (label : Str) (hl : label ≠ []) :
    matchKDate label [] = none := by
  cases label with
  | nil => exact absurd rfl hl
  | cons c cs => rfl

theorem matchP3_nil : matchP3 [] = none := rfl

theorem matchP7_nil : matchP7 [] = none := rfl

theorem matchP8_nil : matchP8 [] = none := rfl

theorem subUnanchored_fire (m : Str → Option Nat) (R A M B : Str)
    (hM : M ≠ []) (hmatch : m (M ++ B) = some M.length) (hnil : m [] = none)
    (hA : ∀ k, k < A.length → m ((A ++ (M ++ B)).drop k) = none)
    (hB : ∀ k, k < B.length → m (B.drop k) = none) :
    subUnanchored m R (A ++ (M ++ B)) = A ++ (R ++ B) := by
  unfold subUnanchored scanSub
  have step1 : scanSubAux (fun s => (m s).map (fun k => (R, k))) 0
      (A ++ (M ++ B))
      = A ++ scanSubAux (fun s => (m s).map (fun k => (R, k))) 0 (M ++ B) :=
    scanSub_append_of_noMatch (fun k hk => by simp [hA k hk])
  have step2 : scanSubAux (fun s => (m s).map (fun k => (R, k))) 0 (M ++ B)
      = R ++ scanSubAux (fun s => (m s).map (fun k => (R, k))) 0 B :=
    scanSub_match_step hM (by simp [hmatch])
  have step3 : scanSubAux (fun s => (m s).map (fun k => (R, k))) 0 B = B :=
    scanSub_eq_self_of_noMatch (fun k => by
      by_cases hk : k < B.length
      · simp [hB k hk]
      · rw [List.drop_eq_nil_of_le (by omega)]
        simp [hnil])
  rw [step1, step2, step3]

theorem subAnchored_fire (m : Str → Option Nat) (R M B : Str)
    (hmatch : m (M ++ B) = some M.length) :
    subAnchored m R (M ++ B) = R ++ B := by
  unfold subAnchored
  rw [hmatch]
  show R ++ List.drop M.length (M ++ B) = R ++ B
  rw [List.drop_left]

theorem subUnanchored_noMatch (m : Str → Option Nat) (R content : Str)
    (hnil : m [] = none)
    (h : ∀ k, k < content.length → m (content.drop k) = none) :
    subUnanchored m R content = content := by
  unfold subUnanchored scanSub
  exact scanSub_eq_self_of_noMatch (fun k => by
    by_cases hk : k < content.length
    · simp [h k hk]
    · rw [List.drop_eq_nil_of_le (by omega)]
      simp [hnil])

theorem applyPattern_noMatch_un (m : Str → Option Nat) (r : Str)
    (content : Str) (hnil : m [] = none)
    (h : ∀ k, k < content.length → m (content.drop k) = none) :
    applyPattern ⟨false, m, some r⟩ content = some content := by
  unfold applyPattern
  rw [show (⟨false, m, some r⟩ : DatePattern).repl = some r from rfl]
  simp only [show (⟨false, m, some r⟩ : DatePattern).anchored = false from rfl,
    Bool.false_eq_true, if_false]
  rw [subUnanchored_noMatch m r content hnil h]

theorem applyPattern_noMatch_anch (m : Str → Option Nat) (r : Str)
    (content : Str) (h : m content = none) :
    applyPattern ⟨true, m, some r⟩ content = some content := by
  unfold applyPattern subAnchored
  simp [h]

theorem append_cons_ne_of_head {A u v : Str} {c c' : Char} (h : c ≠ c') :
    A ++ c :: u ≠ A ++ c' :: v := by
  intro he
  have h2 := List.append_cancel_left he
  injection h2 with h3 _
  exact h h3

theorem foldStep_unchanged (p : DatePattern) (c : Str) (b : Bool)
    (h : applyPattern p c = some c) :
    Option.bind (some (c, b))
      (fun cu => (applyPattern p cu.1).map
        (fun nc => if nc ≠ cu.1 then (nc, true) else (cu.1, cu.2)))
      = some (c, b) := by
  simp [h]

theorem foldStep_changed (p : DatePattern) (c c' : Str) (b : Bool)
    (h : applyPattern p c = some c') (hne : c' ≠ c) :
    Option.bind (some (c, b))
      (fun cu => (applyPattern p cu.1).map
        (fun nc => if nc ≠ cu.1 then (nc, true) else (cu.1, cu.2)))
      = some (c', true) := by
  simp [h, hne]

theorem foldPatterns_unchanged (l : List DatePattern) (c : Str) (b : Bool)
    (h : ∀ q ∈ l, applyPattern q c = some c) :
    l.foldl
      (fun acc p => acc.bind
        (fun cu => (applyPattern p cu.1).map
          (fun nc => if nc ≠ cu.1 then (nc, true) else (cu.1, cu.2))))
      (some (c, b)) = some (c, b) := by
  induction l with
  | nil => rfl
  | cons q qs ih =>
    rw [List.foldl_cons]
    rw [show (some (c, b)).bind
        (fun cu => (applyPattern q cu.1).map
          (fun nc => if nc ≠ cu.1 then (nc, true) else (cu.1, cu.2)))
      = some (c, b) from foldStep_unchanged q c b (h q (List.mem_cons_self q qs))]
    exact ih (fun q' hq' => h q' (List.mem_cons_of_mem q hq'))

theorem update_fold_split (t : Date) (pre post : List DatePattern)
    (p : DatePattern) (c0 c1 : Str)
    (hps : datePatterns t = pre ++ p :: post)
    (hpre : ∀ q ∈ pre, applyPattern q c0 = some c0)
    (hp : applyPattern p c0 = some c1) (hne : c1 ≠ c0)
    (hpost : ∀ q ∈ post, applyPattern q c1 = some c1) :
    update_markdown_date_fields t c0 = some (c1, true) := by
  unfold update_markdown_date_fields
  rw [hps, List.foldl_append, foldPatterns_unchanged pre c0 false hpre,
    List.foldl_cons]
  rw [show (some (c0, false)).bind
      (fun cu => (applyPattern p cu.1).map
        (fun nc => if nc ≠ cu.1 then (nc, true) else (cu.1, cu.2)))
    = some (c1, true) from foldStep_changed p c0 c1 false hp hne]
  exact foldPatterns_unchanged post c1 true hpost

/-- C6: on a file whose content matches none of the eight date-field
patterns, the updater leaves the content byte-identical and the updated flag
is `false` — no write is performed and "no date field to update" is
reported.  (`dateWF t` makes the replacement templates render, as they do
for every current date; without it Python raises before comparing.) -/
theorem c6_no_match_no_change (t : Date) (content : Str) (ht : dateWF t)
    (h1 : ∀ k, k < content.length →
      matchKDate (str "**작성일**:") (content.drop k) = none)
    (h2 : ∀ k, k < content.length →
      matchKDate (str "**작성 일자**:") (content.drop k) = none)
    (h3 : matchP3 content = none)
    (h4 : ∀ k, k < content.length →
      matchKDate (str "**수정일**:") (content.drop k) = none)
    (h5 : ∀ k, k < content.length →
      matchKDate (str "**보류 일자**:") (content.drop k) = none)
    (h6 : ∀ k, k < content.length →
      matchKDate (str "**취소 일자**:") (content.drop k) = none)
    (h7 : ∀ k, k < content.length → matchP7 (content.drop k) = none)
    (h8 : ∀ k, k < content.length → matchP8 (content.drop k) = none) :
    update_markdown_date_fields t content = some (content, false) := by
  have hall : ∀ q ∈ datePatterns t, applyPattern q content = some content := by
    intro q hq
    have hkr := krRepl_eq t ht
    have hdot := dotRepl_eq t ht
    have hiso := isoRepl_eq t ht
    simp only [datePatterns, List.mem_cons, List.not_mem_nil, or_false] at hq
    rcases hq with rfl | rfl | rfl | rfl | rfl | rfl | rfl | rfl
    · rw [show (⟨false, matchKDate (str "**작성일**:"), krRepl t⟩ : DatePattern)
          = ⟨false, matchKDate (str "**작성일**:"),
              some ('P' :: (krFormat t).drop 2)⟩ from by rw [hkr]]
      exact applyPattern_noMatch_un _ _ _ (matchKDate_nil _ (by decide)) h1
    · rw [show (⟨false, matchKDate (str "**작성 일자**:"), krRepl t⟩
            : DatePattern)
          = ⟨false, matchKDate (str "**작성 일자**:"),
              some ('P' :: (krFormat t).drop 2)⟩ from by rw [hkr]]
      exact applyPattern_noMatch_un _ _ _ (matchKDate_nil _ (by decide)) h2
    · rw [show (⟨true, matchP3, krRepl t⟩ : DatePattern)
          = ⟨true, matchP3, some ('P' :: (krFormat t).drop 2)⟩ from by
            rw [hkr]]
      exact applyPattern_noMatch_anch _ _ _ h3
    · rw [show (⟨false, matchKDate (str "**수정일**:"), krRepl t⟩ : DatePattern)
          = ⟨false, matchKDate (str "**수정일**:"),
              some ('P' :: (krFormat t).drop 2)⟩ from by rw [hkr]]
      exact applyPattern_noMatch_un _ _ _ (matchKDate_nil _ (by decide)) h4
    · rw [show (⟨false, matchKDate (str "**보류 일자**:"), krRepl t⟩
            : DatePattern)
          = ⟨false, matchKDate (str "**보류 일자**:"),
              some ('P' :: (krFormat t).drop 2)⟩ from by rw [hkr]]
      exact applyPattern_noMatch_un _ _ _ (matchKDate_nil _ (by decide)) h5
    · rw [show (⟨false, matchKDate (str "**취소 일자**:"), krRepl t⟩
            : DatePattern)
          = ⟨false, matchKDate (str "**취소 일자**:"),
              some ('P' :: (krFormat t).drop 2)⟩ from by rw [hkr]]
      exact applyPattern_noMatch_un _ _ _ (matchKDate_nil _ (by decide)) h6
    · rw [show (⟨false, matchP7, dotRepl t⟩ : DatePattern)
          = ⟨false, matchP7,
              some ('P' :: ((dotFormat t).drop 2 ++ str ")"))⟩ from by
            rw [hdot]]
      exact applyPattern_noMatch_un _ _ _ matchP7_nil h7
    · rw [show (⟨false, matchP8, isoRepl t⟩ : DatePattern)
          = ⟨false, matchP8, some ('P' :: (isoFormat t).drop 2)⟩ from by
            rw [hiso]]
      exact applyPattern_noMatch_un _ _ _ matchP8_nil h8
  unfold update_markdown_date_fields
  exact foldPatterns_unchanged (datePatterns t) content false hall

/-- Witness for C6 at a concrete date and content. -/
theorem c6_no_match_no_change_witness :
    dateWF ⟨2026, 10, 12⟩
    ∧ update_markdown_date_fields ⟨2026, 10, 12⟩ (str "no dates here\n")
        = some (str "no dates here\n", false) :=
  ⟨by decide,
   c6_no_match_no_change ⟨2026, 10, 12⟩ (str "no dates here\n") (by decide)
     (by decide) (by decide) (by decide) (by decide) (by decide) (by decide)
     (by decide) (by decide)⟩

/-- C5 counterexample: on a fixture containing `**작성일**:` plus an old
date, the updater does *not* produce "label followed by today's date": the
template `'\\1' + '2026년 10월 12일'` is parsed as the octal escape `\120`
(`'P'`), so the whole matched text becomes `P26년 10월 12일` and the label
is destroyed; moreover the `완료일` pattern is `^`-anchored and does not fire
on a second line. -/
theorem c5_label_preserved_counterexample :
    update_markdown_date_fields ⟨2026, 10, 12⟩
        (str "- **작성일**: 2025년 01월 20일\n")
      = some (str "- P26년 10월 12일\n", true)
    ∧ update_markdown_date_fields ⟨2026, 10, 12⟩
        (str "- **작성일**: 2025년 01월 20일\n")
      ≠ some (str "- **작성일**: 2026년 10월 12일\n", true)
    ∧ update_markdown_date_fields ⟨2026, 10, 12⟩
        (str "x\n- **완료일**: 2025년 01월 20일\n")
      = some (str "x\n- **완료일**: 2025년 01월 20일\n", false) :=
  ⟨by decide, by decide, by decide⟩

theorem applyPattern_mk_false (m : Str → Option Nat) (r : Str) (c : Str) :
    applyPattern ⟨false, m, some r⟩ c = some (subUnanchored m r c) := rfl

theorem applyPattern_mk_true (m : Str → Option Nat) (r : Str) (c : Str) :
    applyPattern ⟨true, m, some r⟩ c = some (subAnchored m r c) := rfl

theorem koreanFire (t old : Date) (L : String) (A B : Str)
    (ht : dateWF t) (hold : dateWF old) (hL : str L ≠ [])
    (hA : ∀ k, k < A.length → matchKDate (str L)
      ((A ++ ((str L ++ ' ' :: krFormat old) ++ B)).drop k) = none)
    (hB : ∀ k, k < B.length → matchKDate (str L) (B.drop k) = none) :
    applyPattern ⟨false, matchKDate (str L), krRepl t⟩
        (A ++ ((str L ++ ' ' :: krFormat old) ++ B))
      = some (A ++ (('P' :: (krFormat t).drop 2) ++ B)) := by
  rw [show (⟨false, matchKDate (str L), krRepl t⟩ : DatePattern)
      = ⟨false, matchKDate (str L), some ('P' :: (krFormat t).drop 2)⟩ from by
        rw [krRepl_eq t ht]]
  rw [applyPattern_mk_false]
  congr 1
  refine subUnanchored_fire _ _ _ _ _ (by simp) ?_
    (matchKDate_nil _ hL) hA hB
  have hassoc : (str L ++ ' ' :: krFormat old) ++ B
      = str L ++ ' ' :: (krFormat old ++ B) := by simp
  rw [hassoc]
  exact matchKDate_exact (str L) old B hold

theorem p3Fire (t old : Date) (B : Str) (ht : dateWF t) (hold : dateWF old) :
    applyPattern ⟨true, matchP3, krRepl t⟩
        (('-' :: ' ' :: (str "**완료일**:" ++ ' ' :: krFormat old)) ++ B)
      = some (('P' :: (krFormat t).drop 2) ++ B) := by
  rw [show (⟨true, matchP3, krRepl t⟩ : DatePattern)
      = ⟨true, matchP3, some ('P' :: (krFormat t).drop 2)⟩ from by
        rw [krRepl_eq t ht]]
  rw [applyPattern_mk_true]
  congr 1
  refine subAnchored_fire _ _ _ _ ?_
  have hassoc : ('-' :: ' ' :: (str "**완료일**:" ++ ' ' :: krFormat old)) ++ B
      = '-' :: ' ' :: (str "**완료일**:" ++ ' ' :: (krFormat old ++ B)) := by
    simp
  rw [hassoc]
  exact matchP3_exact old B hold

theorem p7Fire (t old : Date) (A B : Str) (ht : dateWF t) (hold : dateWF old)
    (hA : ∀ k, k < A.length → matchP7
      ((A ++ ((str "### 오늘 (" ++ dotFormat old ++ [')']) ++ B)).drop k)
        = none)
    (hB : ∀ k, k < B.length → matchP7 (B.drop k) = none) :
    applyPattern ⟨false, matchP7, dotRepl t⟩
        (A ++ ((str "### 오늘 (" ++ dotFormat old ++ [')']) ++ B))
      = some (A ++ (('P' :: ((dotFormat t).drop 2 ++ str ")")) ++ B)) := by
  rw [show (⟨false, matchP7, dotRepl t⟩ : DatePattern)
      = ⟨false, matchP7,
          some ('P' :: ((dotFormat t).drop 2 ++ str ")"))⟩ from by
        rw [dotRepl_eq t ht]]
  rw [applyPattern_mk_false]
  congr 1
  refine subUnanchored_fire _ _ _ _ _ (by simp [str]) ?_ matchP7_nil hA hB
  have hassoc : (str "### 오늘 (" ++ dotFormat old ++ [')']) ++ B
      = str "### 오늘 (" ++ (dotFormat old ++ ')' :: B) := by simp
  rw [hassoc]
  exact matchP7_exact old B hold

theorem p8Fire (t old : Date) (A B : Str) (ht : dateWF t) (hold : dateWF old)
    (hA : ∀ k, k < A.length → matchP8
      ((A ++ ((str "Date: " ++ isoFormat old) ++ B)).drop k) = none)
    (hB : ∀ k, k < B.length → matchP8 (B.drop k) = none) :
    applyPattern ⟨false, matchP8, isoRepl t⟩
        (A ++ ((str "Date: " ++ isoFormat old) ++ B))
      = some (A ++ (('P' :: (isoFormat t).drop 2) ++ B)) := by
  rw [show (⟨false, matchP8, isoRepl t⟩ : DatePattern)
      = ⟨false, matchP8, some ('P' :: (isoFormat t).drop 2)⟩ from by
        rw [isoRepl_eq t ht]]
  rw [applyPattern_mk_false]
  congr 1
  refine subUnanchored_fire _ _ _ _ _ (by simp [str]) ?_ matchP8_nil hA hB
  have hassoc : (str "Date: " ++ isoFormat old) ++ B
      = str "Date: " ++ (isoFormat old ++ B) := by simp
  rw [hassoc]
  exact matchP8_exact old B hold

/-- C5 amended: for each of the eight date-field patterns, on content
holding the exact label and an old date, the updater replaces the **entire
matched label-and-date text** by the character `P` followed by today's date
in the pattern's format with its leading `20` removed (the label is not
preserved; for the `### 오늘` pattern a closing parenthesis is re-emitted
from group 3), with all other text byte-identical and the updated flag set;
the `완료일` pattern fires only at the very start of the file.  The five
unanchored Korean patterns are indexed by their position in the pattern
list. -/
theorem c5_date_fields_amended :
    (∀ il ∈ ([(0, "**작성일**:"), (1, "**작성 일자**:"), (3, "**수정일**:"),
        (4, "**보류 일자**:"), (5, "**취소 일자**:")] : List (Nat × String)),
      ∀ (t old : Date) (A B : Str), dateWF t → dateWF old →
      (∀ k, k < A.length → matchKDate (str il.2)
        ((A ++ ((str il.2 ++ ' ' :: krFormat old) ++ B)).drop k) = none) →
      (∀ k, k < B.length → matchKDate (str il.2) (B.drop k) = none) →
      (∀ q ∈ (datePatterns t).take il.1,
        applyPattern q (A ++ ((str il.2 ++ ' ' :: krFormat old) ++ B))
          = some (A ++ ((str il.2 ++ ' ' :: krFormat old) ++ B))) →
      (∀ q ∈ (datePatterns t).drop (il.1 + 1),
        applyPattern q (A ++ (('P' :: (krFormat t).drop 2) ++ B))
          = some (A ++ (('P' :: (krFormat t).drop 2) ++ B))) →
      update_markdown_date_fields t
          (A ++ ((str il.2 ++ ' ' :: krFormat old) ++ B))
        = some (A ++ (('P' :: (krFormat t).drop 2) ++ B), true))
    ∧ (∀ (t old : Date) (B : Str), dateWF t → dateWF old →
      (∀ q ∈ (datePatterns t).take 2,
        applyPattern q
            (('-' :: ' ' :: (str "**완료일**:" ++ ' ' :: krFormat old)) ++ B)
          = some (('-' :: ' ' :: (str "**완료일**:" ++ ' '
              :: krFormat old)) ++ B)) →
      (∀ q ∈ (datePatterns t).drop 3,
        applyPattern q (('P' :: (krFormat t).drop 2) ++ B)
          = some (('P' :: (krFormat t).drop 2) ++ B)) →
      update_markdown_date_fields t
          (('-' :: ' ' :: (str "**완료일**:" ++ ' ' :: krFormat old)) ++ B)
        = some (('P' :: (krFormat t).drop 2) ++ B, true))
    ∧ (∀ (t old : Date) (A B : Str), dateWF t → dateWF old →
      (∀ k, k < A.length → matchP7
        ((A ++ ((str "### 오늘 (" ++ dotFormat old ++ [')']) ++ B)).drop k)
          = none) →
      (∀ k, k < B.length → matchP7 (B.drop k) = none) →
      (∀ q ∈ (datePatterns t).take 6,
        applyPattern q
            (A ++ ((str "### 오늘 (" ++ dotFormat old ++ [')']) ++ B))
          = some (A ++ ((str "### 오늘 (" ++ dotFormat old ++ [')']) ++ B))) →
      (∀ q ∈ (datePatterns t).drop 7,
        applyPattern q
            (A ++ (('P' :: ((dotFormat t).drop 2 ++ str ")")) ++ B))
          = some (A ++ (('P' :: ((dotFormat t).drop 2 ++ str ")")) ++ B))) →
      update_markdown_date_fields t
          (A ++ ((str "### 오늘 (" ++ dotFormat old ++ [')']) ++ B))
        = some (A ++ (('P' :: ((dotFormat t).drop 2 ++ str ")")) ++ B), true))
    ∧ (∀ (t old : Date) (A B : Str), dateWF t → dateWF old →
      (∀ k, k < A.length → matchP8
        ((A ++ ((str "Date: " ++ isoFormat old) ++ B)).drop k) = none) →
      (∀ k, k < B.length → matchP8 (B.drop k) = none) →
      (∀ q ∈ (datePatterns t).take 7,
        applyPattern q (A ++ ((str "Date: " ++ isoFormat old) ++ B))
          = some (A ++ ((str "Date: " ++ isoFormat old) ++ B))) →
      update_markdown_date_fields t
          (A ++ ((str "Date: " ++ isoFormat old) ++ B))
        = some (A ++ (('P' :: (isoFormat t).drop 2) ++ B), true)) := by
  refine ⟨?_, ?_, ?_, ?_⟩
  · intro il hil t old A B ht hold hA hB hpre hpost
    simp only [List.mem_cons, List.not_mem_nil, or_false] at hil
    rcases hil with rfl | rfl | rfl | rfl | rfl
    · exact update_fold_split t _ _ _ _ _ rfl hpre
        (koreanFire t old _ A B ht hold (by decide) hA hB)
        (append_cons_ne_of_head (by decide)) hpost
    · exact update_fold_split t _ _ _ _ _ rfl hpre
        (koreanFire t old _ A B ht hold (by decide) hA hB)
        (append_cons_ne_of_head (by decide)) hpost
    · exact update_fold_split t _ _ _ _ _ rfl hpre
        (koreanFire t old _ A B ht hold (by decide) hA hB)
        (append_cons_ne_of_head (by decide)) hpost
    · exact update_fold_split t _ _ _ _ _ rfl hpre
        (koreanFire t old _ A B ht hold (by decide) hA hB)
        (append_cons_ne_of_head (by decide)) hpost
    · exact update_fold_split t _ _ _ _ _ rfl hpre
        (koreanFire t old _ A B ht hold (by decide) hA hB)
        (append_cons_ne_of_head (by decide)) hpost
  · intro t old B ht hold hpre hpost
    refine update_fold_split t _ _ _ _ _ rfl hpre (p3Fire t old B ht hold)
      ?_ hpost
    intro he
    rw [show ('P' :: (krFormat t).drop 2) ++ B
        = 'P' :: ((krFormat t).drop 2 ++ B) from rfl,
      show ('-' :: ' ' :: (str "**완료일**:" ++ ' ' :: krFormat old)) ++ B
        = '-' :: ((' ' :: (str "**완료일**:" ++ ' ' :: krFormat old)) ++ B)
        from rfl] at he
    injection he with h1 _
    exact absurd h1 (by decide)
  · intro t old A B ht hold hA hB hpre hpost
    exact update_fold_split t _ _ _ _ _ rfl hpre
      (p7Fire t old A B ht hold hA hB)
      (append_cons_ne_of_head (by decide)) hpost
  · intro t old A B ht hold hA hB hpre
    exact update_fold_split t _ _ _ _ _ rfl hpre
      (p8Fire t old A B ht hold hA hB)
      (append_cons_ne_of_head (by decide)) (by simp [datePatterns])

/-- Witness for C5 (amended) at a concrete date and fixture. -/
theorem c5_date_fields_amended_witness :
    ((0, "**작성일**:") ∈ ([(0, "**작성일**:"), (1, "**작성 일자**:"),
        (3, "**수정일**:"), (4, "**보류 일자**:"), (5, "**취소 일자**:")]
        : List (Nat × String)))
    ∧ update_markdown_date_fields ⟨2026, 10, 12⟩
        (str "x\n" ++ ((str "**작성일**:" ++ ' '
          :: krFormat ⟨2026, 10, 12⟩) ++ str "\ny"))
      = some (str "x\n" ++ (('P' :: (krFormat ⟨2026, 10, 12⟩).drop 2)
          ++ str "\ny"), true) :=
  ⟨by decide,
   c5_date_fields_amended.1 (0, "**작성일**:") (by decide) ⟨2026, 10, 12⟩
     ⟨2026, 10, 12⟩ (str "x\n") (str "\ny") (by decide) (by decide)
     (by decide) (by decide) (by decide) (by decide)⟩

/-! ## Progress Sync : `update_progress_in_content` and `run`
(sync-progress.py, lines 68-76 and 104-119)

For each accumulated completed task, the code runs
`re.sub(r'- \[ \] (.*TASK.*)', r'- [x] \1 ✅ (DATE 완료)', content)` with
`TASK = re.escape(task['task'][:30])`.  Since `.` does not match a newline
and the trailing `.*` is greedy, each match starts at the leftmost
occurrence of `- [ ] ` on a line whose remainder contains the task text and
extends to the end of that line, so one `re.sub` call rewrites each line
independently, at most once per line.  The scan is modelled per line:
`lineMatchIdx` finds the leftmost match position in a newline-free line,
`lineSub` performs the replacement, and `taskContentSub` maps it over the
lines of the content. -/

/-- The literal `- [ ]` (five characters). -/
def umPat : Str := str "- [ ]"

/-- The literal regex prefix `- [ ] ` (six characters). -/
def umPat6 : Str := str "- [ ] "

/-- The replacement marker `- [x] ` (six characters). -/
def mkDone : Str := str "- [x] "

/-- Leftmost index `i` of a newline-free line at which the pattern
`- \[ \] (.*task.*)` matches: `- [ ] ` occurs at `i` and the task text
occurs in the rest of the line. -/
def lineMatchIdx (t : Str) : Str → Option Nat
  | [] => none
  | c :: cs =>
    if startsWith umPat6 (c :: cs) && hasSub t (List.drop 6 (c :: cs)) then
      some 0
    else (lineMatchIdx t cs).map (· + 1)

/-- Effect of one `re.sub` call on one line: replace
`- [ ] <rest-of-line>` by `- [x] <rest-of-line> ✅ (<date> 완료)` at the
leftmost match, if any. -/
def lineSub (t d l : Str) : Str :=
  match lineMatchIdx t l with
  | none => l
  | some i =>
      l.take i ++ (mkDone ++ (l.drop (i + 6)
        ++ (str " ✅ (" ++ (d ++ str " 완료)"))))

/-- Split a content string into its lines (separators removed); inverse of
`joinLines`. -/
def splitLines : Str → List Str
  | [] => [[]]
  | c :: cs =>
    if c = '\n' then [] :: splitLines cs
    else
      match splitLines cs with
      | [] => [[c]]
      | l :: ls => (c :: l) :: ls

/-- Rejoin lines with `'\n'` separators. -/
def joinLines : List Str → Str
  | [] => []
  | [l] => l
  | l :: ls => l ++ '\n' :: joinLines ls

/-- One `re.sub(pattern(t), repl(d), content)` call of
`update_progress_in_content`: every line is rewritten independently. -/
def taskContentSub (t d c : Str) : Str :=
  joinLines ((splitLines c).map (lineSub t d))

/-- `update_progress_in_content` (lines 68-76): one `re.sub` per completed
task, over the first 30 characters of the task text. -/
def update_progress_in_content (tasks : List CompletedTask) (content : Str) :
    Str :=
  tasks.foldl (fun c X => taskContentSub (X.task.take 30) X.date c) content

/-- One run of `ProgressSync.run` (lines 104-119) as far as the todo file
and the reported completed count are concerned: scan the plan files,
rewrite the todo content, report `len(self.completed_tasks)`. -/
def runSync (files : List PlanFile) (d todo : Str) : Str × Nat :=
  (update_progress_in_content (scanCompletedTasks files d) todo,
   (scanCompletedTasks files d).length)

/-- `p` occurs at position `i` of `l`. -/
def prefAt (p l : Str) (i : Nat) : Prop := startsWith p (l.drop i) = true

instance (p l : Str) (i : Nat) : Decidable (prefAt p l i) :=
  inferInstanceAs (Decidable (startsWith p (l.drop i) = true))

/-- The line `l` contains at most one occurrence of `- [ ]`. -/
def atMostOneUm (l : Str) : Prop :=
  ∀ i, i < l.length → ∀ j, j < l.length →
    prefAt umPat l i → prefAt umPat l j → i = j

instance (l : Str) : Decidable (atMostOneUm l) :=
  inferInstanceAs (Decidable (∀ i, i < l.length → ∀ j, j < l.length →
    prefAt umPat l i → prefAt umPat l j → i = j))

theorem startsWith_length_le {p s : Str} (h : startsWith p s = true) :
    p.length ≤ s.length := by
  induction p generalizing s with
  | nil => simp
  | cons a as ih =>
    cases s with
    | nil => simp [startsWith] at h
    | cons b bs =>
      simp only [startsWith, Bool.and_eq_true] at h
      simpa [List.length_cons] using ih h.2

theorem startsWith_of_append {p q s : Str}
    (h : startsWith (p ++ q) s = true) : startsWith p s = true := by
  induction p generalizing s with
  | nil => rfl
  | cons a as ih =>
    cases s with
    | nil => simp [startsWith] at h
    | cons b bs =>
      simp only [List.cons_append, startsWith, Bool.and_eq_true] at h ⊢
      exact ⟨h.1, ih h.2⟩

theorem startsWith_of_append_le {p C X : Str}
    (h : startsWith p (C ++ X) = true) (hl : p.length ≤ C.length) :
    startsWith p C = true := by
  induction p generalizing C with
  | nil => rfl
  | cons a as ih =>
    cases C with
    | nil => simp at hl
    | cons b bs =>
      simp only [List.cons_append, startsWith, Bool.and_eq_true] at h ⊢
      exact ⟨h.1, ih h.2 (by simpa using hl)⟩

theorem startsWith_append_eq {p C X : Str} (h : p.length ≤ C.length) :
    startsWith p (C ++ X) = startsWith p C := by
  cases hc : startsWith p C with
  | true => exact startsWith_of_startsWith_append hc
  | false =>
    cases ha : startsWith p (C ++ X) with
    | false => rfl
    | true => exact absurd (startsWith_of_append_le ha h) (by simp [hc])

theorem startsWith_drop {p s : Str} (n : Nat) (h : startsWith p s = true) :
    startsWith (p.drop n) (s.drop n) = true := by
  induction n generalizing p s with
  | zero => simpa using h
  | succ n ih =>
    cases p with
    | nil => simp [startsWith]
    | cons a as =>
      cases s with
      | nil => simp [startsWith] at h
      | cons b bs =>
        simp only [startsWith, Bool.and_eq_true] at h
        simpa [List.drop] using ih h.2

theorem sw_head_ne {a b : Char} (p X : Str) (h : a ≠ b) :
    startsWith (a :: p) (b :: X) = false := by
  rw [Bool.eq_false_iff]
  intro hh
  simp only [startsWith, Bool.and_eq_true, beq_iff_eq] at hh
  exact h hh.1

theorem hasSub_of_prefAt {p s : Str} {j : Nat}
    (h : startsWith p (s.drop j) = true) : hasSub p s = true := by
  induction s generalizing j with
  | nil => simpa [hasSub, List.drop_nil] using h
  | cons c cs ih =>
    cases j with
    | zero => simp only [hasSub]; rw [List.drop] at h; simp [h]
    | succ j =>
      simp only [hasSub]
      rw [List.drop] at h
      simp [ih h]

theorem umPat6_eq : umPat6 = umPat ++ [' '] := rfl

theorem lineMatchIdx_some {t l : Str} {i : Nat}
    (h : lineMatchIdx t l = some i) :
    startsWith umPat6 (l.drop i) = true := by
  induction l generalizing i with
  | nil => simp [lineMatchIdx] at h
  | cons c cs ih =>
    by_cases hc :
        (startsWith umPat6 (c :: cs) && hasSub t (List.drop 6 (c :: cs)))
        = true
    · rw [lineMatchIdx, if_pos hc] at h
      obtain rfl : i = 0 := by
        have := h; injection this with h2; omega
      exact ((Bool.and_eq_true _ _).mp hc).1
    · rw [lineMatchIdx, if_neg hc] at h
      rcases Option.map_eq_some'.mp h with ⟨i', hi', rfl⟩
      rw [List.drop]
      exact ih hi'

theorem prefAt_of_match {t l : Str} {i : Nat}
    (h : lineMatchIdx t l = some i) : prefAt umPat l i :=
  startsWith_of_append (p := umPat) (q := [' '])
    (by rw [← umPat6_eq]; exact lineMatchIdx_some h)

theorem lineMatchIdx_none_of_noUm {t l : Str}
    (h : ∀ j, ¬ prefAt umPat l j) : lineMatchIdx t l = none := by
  cases heq : lineMatchIdx t l with
  | none => rfl
  | some i => exact absurd (prefAt_of_match heq) (h i)

theorem sw_umPat_cons {b : Char} (X : Str) (h : b ≠ '-') :
    startsWith umPat (b :: X) = false := by
  rw [show umPat = '-' :: [' ', '[', ' ', ']'] from rfl]
  exact sw_head_ne _ _ (Ne.symm h)

theorem lineSub_noUm {t d l : Str} {i : Nat}
    (hM : lineMatchIdx t l = some i)
    (hone : atMostOneUm l)
    (hd : hasSub umPat d = false) :
    ∀ j, ¬ prefAt umPat (lineSub t d l) j := by
  intro j hj
  have hsw6 : startsWith umPat6 (l.drop i) = true := lineMatchIdx_some hM
  have hl6 : i + 6 ≤ l.length := by
    have h1 := startsWith_length_le hsw6
    rw [List.length_drop] at h1
    have h2 : umPat6.length = 6 := rfl
    omega
  have hdec : l.drop i = umPat6 ++ l.drop (i + 6) := by
    have h1 := startsWith_eq_append hsw6
    rw [h1]
    rw [show umPat6.length = 6 from rfl, List.drop_drop]
  have hAlen : (l.take i).length = i := by
    rw [List.length_take]; omega
  have hldec : l = l.take i ++ (umPat6 ++ l.drop (i + 6)) := by
    conv_lhs => rw [← List.take_append_drop i l]
    rw [hdec]
  simp only [lineSub, hM] at hj
  simp only [prefAt] at hj
  set R := l.drop (i + 6) with hR
  have hmk : mkDone.length = 6 := rfl
  have hs1 : (str " ✅ (").length = 4 := rfl
  have hs2 : (str " 완료)").length = 4 := rfl
  have humlen : umPat.length = 5 := rfl
  have hLlen : l.length = i + (6 + R.length) := by
    have h1 := congrArg List.length hldec
    rw [List.length_append, List.length_append, hAlen,
      show umPat6.length = 6 from rfl] at h1
    exact h1
  have hlen5 := startsWith_length_le hj
  rw [List.length_drop, humlen] at hlen5
  have houtlen :
      (l.take i ++ (mkDone ++ (R ++ (str " ✅ (" ++ (d ++ str " 완료)"))))).length
      = i + 6 + R.length + 4 + d.length + 4 := by
    simp only [List.length_append, hAlen, hmk, hs1, hs2]
    omega
  rw [houtlen] at hlen5
  have honei : prefAt umPat l i := prefAt_of_match hM
  rcases Nat.lt_or_ge j i with hji | hji
  · -- the occurrence starts inside the untouched part before the match
    rw [List.drop_append_of_le_length (by rw [hAlen]; omega)] at hj
    rcases Nat.lt_or_ge (j + 4) i with hfull | hstr
    · -- fully inside `l.take i`
      have h1 : startsWith umPat ((l.take i).drop j) = true :=
        startsWith_of_append_le hj
          (by rw [List.length_drop, hAlen, humlen]; omega)
      have h2 : prefAt umPat l j := by
        show startsWith umPat (l.drop j) = true
        have h3 : l.drop j = (l.take i).drop j ++ (umPat6 ++ R) := by
          conv_lhs => rw [hldec]
          rw [List.drop_append_of_le_length (by rw [hAlen]; omega)]
        rw [h3]
        exact startsWith_of_startsWith_append h1
      have h4 := hone j (by omega) i (by omega) h2 honei
      omega
    · -- straddles the boundary with the `- [x] ` marker
      set u := i - j with hu
      have hu1 : 1 ≤ u := by omega
      have hu4 : u ≤ 4 := by omega
      have h1 := startsWith_drop u hj
      rw [List.drop_left' (by rw [List.length_drop, hAlen]; try omega)] at h1
      rw [startsWith_append_eq
        (by rw [List.length_drop, humlen, hmk]; omega)] at h1
      interval_cases u <;> exact absurd h1 (by decide)
  · -- the occurrence starts at or after the marker
    rw [List.drop_append_eq_append_drop,
      List.drop_eq_nil_of_le (by rw [hAlen]; omega), List.nil_append,
      hAlen] at hj
    set w := j - i with hw
    rcases Nat.lt_or_ge w 6 with hw6 | hw6
    · -- starts inside the `- [x] ` marker
      rw [List.drop_append_of_le_length (by rw [hmk]; omega)] at hj
      have hgen : ∃ Y : Str,
          startsWith umPat (mkDone.drop w ++ Y) = true := ⟨_, hj⟩
      obtain ⟨Y, hY⟩ := hgen
      interval_cases w
      · rw [show List.drop 0 mkDone = mkDone from rfl,
          startsWith_append_eq (by decide)] at hY
        exact absurd hY (by decide)
      · rw [show List.drop 1 mkDone = [' ', '[', 'x', ']', ' '] from rfl,
          startsWith_append_eq (by decide)] at hY
        exact absurd hY (by decide)
      · rw [show List.drop 2 mkDone = ['[', 'x', ']', ' '] from rfl,
          List.cons_append, sw_umPat_cons _ (by decide)] at hY
        exact absurd hY (by decide)
      · rw [show List.drop 3 mkDone = ['x', ']', ' '] from rfl,
          List.cons_append, sw_umPat_cons _ (by decide)] at hY
        exact absurd hY (by decide)
      · rw [show List.drop 4 mkDone = [']', ' '] from rfl,
          List.cons_append, sw_umPat_cons _ (by decide)] at hY
        exact absurd hY (by decide)
      · rw [show List.drop 5 mkDone = [' '] from rfl,
          List.cons_append, sw_umPat_cons _ (by decide)] at hY
        exact absurd hY (by decide)
    · -- past the marker
      rw [List.drop_append_eq_append_drop,
        List.drop_eq_nil_of_le (by rw [hmk]; omega), List.nil_append,
        hmk] at hj
      set v : Nat := w - 6 with hv
      rcases Nat.lt_or_ge (v + 4) R.length with hvf | hvs
      · -- fully inside the copied rest-of-line
        rw [List.drop_append_of_le_length (by omega)] at hj
        have h1 : startsWith umPat (R.drop v) = true :=
          startsWith_of_append_le hj
            (by rw [List.length_drop, humlen]; omega)
        have h2 : prefAt umPat l (i + 6 + v) := by
          show startsWith umPat (l.drop (i + 6 + v)) = true
          have h3 : l.drop (i + 6 + v) = R.drop v := by
            conv_lhs => rw [hldec]
            rw [List.drop_append_eq_append_drop,
              List.drop_eq_nil_of_le (by rw [hAlen]; omega),
              List.nil_append, hAlen,
              List.drop_append_eq_append_drop,
              List.drop_eq_nil_of_le
                (by rw [show umPat6.length = 6 from rfl]; omega),
              List.nil_append, show umPat6.length = 6 from rfl]
            congr 1
            omega
          rw [h3]
          exact h1
        have h4 := hone (i + 6 + v) (by omega) i (by omega) h2 honei
        omega
      · rcases Nat.lt_or_ge v R.length with hvr | hvr
        · -- straddles the boundary with ` ✅ (`
          rw [List.drop_append_of_le_length (by omega)] at hj
          set u := R.length - v with hu
          have hu1 : 1 ≤ u := by omega
          have hu4 : u ≤ 4 := by omega
          have h1 := startsWith_drop u hj
          rw [List.drop_left' (by rw [List.length_drop]; try omega)] at h1
          interval_cases u <;>
            (rw [startsWith_append_eq (by decide)] at h1;
             exact absurd h1 (by decide))
        · -- at or past ` ✅ (`
          rw [List.drop_append_eq_append_drop,
            List.drop_eq_nil_of_le (by omega), List.nil_append] at hj
          set v2 : Nat := v - R.length with hv2
          rcases Nat.lt_or_ge v2 4 with hv24 | hv24
          · -- starts inside ` ✅ (`
            rw [List.drop_append_of_le_length (by rw [hs1]; omega)] at hj
            have hgen : ∃ Y : Str,
                startsWith umPat ((str " ✅ (").drop v2 ++ Y) = true :=
              ⟨_, hj⟩
            obtain ⟨Y, hY⟩ := hgen
            interval_cases v2
            · rw [show List.drop 0 (str " ✅ (") = ' ' :: ['✅', ' ', '(']
                  from rfl,
                List.cons_append, sw_umPat_cons _ (by decide)] at hY
              exact absurd hY (by decide)
            · rw [show List.drop 1 (str " ✅ (") = '✅' :: [' ', '(']
                  from rfl,
                List.cons_append, sw_umPat_cons _ (by decide)] at hY
              exact absurd hY (by decide)
            · rw [show List.drop 2 (str " ✅ (") = ' ' :: ['('] from rfl,
                List.cons_append, sw_umPat_cons _ (by decide)] at hY
              exact absurd hY (by decide)
            · rw [show List.drop 3 (str " ✅ (") = '(' :: [] from rfl,
                List.cons_append, sw_umPat_cons _ (by decide)] at hY
              exact absurd hY (by decide)
          · -- at or past the date
            rw [List.drop_append_eq_append_drop,
              List.drop_eq_nil_of_le (by rw [hs1]; omega),
              List.nil_append, hs1] at hj
            set v3 : Nat := v2 - 4 with hv3
            rcases Nat.lt_or_ge (v3 + 4) d.length with hdf | hds
            · -- fully inside the date
              rw [List.drop_append_of_le_length (by omega)] at hj
              have h1 : startsWith umPat (d.drop v3) = true :=
                startsWith_of_append_le hj
                  (by rw [List.length_drop, humlen]; omega)
              exact absurd (hasSub_of_prefAt h1) (by rw [hd]; decide)
            · rcases Nat.lt_or_ge v3 d.length with hdr | hdr
              · -- straddles the boundary with ` 완료)`
                rw [List.drop_append_of_le_length (by omega)] at hj
                set u := d.length - v3 with hu
                have hu1 : 1 ≤ u := by omega
                have hu4 : u ≤ 4 := by omega
                have h1 := startsWith_drop u hj
                rw [List.drop_left'
                  (by rw [List.length_drop]; try omega)] at h1
                interval_cases u <;> exact absurd h1 (by decide)
              · -- inside ` 완료)` : too short for a five-character match
                omega

theorem splitLines_ne_nil (c : Str) : splitLines c ≠ [] := by
  cases c with
  | nil => simp [splitLines]
  | cons a as =>
    rw [splitLines]
    by_cases ha : a = '\n'
    · simp [ha]
    · rw [if_neg ha]
      cases splitLines as <;> simp

theorem joinLines_cons_cons (x : Str) (l : Str) (ls : List Str) :
    joinLines ((x ++ l) :: ls) = x ++ joinLines (l :: ls) := by
  cases ls with
  | nil => rfl
  | cons l' ls' => simp [joinLines, List.append_assoc]

theorem joinLines_splitLines (c : Str) : joinLines (splitLines c) = c := by
  induction c with
  | nil => rfl
  | cons a as ih =>
    rw [splitLines]
    by_cases ha : a = '\n'
    · rw [if_pos ha]
      obtain ⟨l, ls, heq⟩ : ∃ l ls, splitLines as = l :: ls := by
        cases h : splitLines as with
        | nil => exact absurd h (splitLines_ne_nil as)
        | cons l ls => exact ⟨l, ls, rfl⟩
      rw [heq]
      rw [heq] at ih
      rw [show joinLines ([] :: l :: ls) = [] ++ '\n' :: joinLines (l :: ls)
        from rfl]
      simp [ha, ih]
    · rw [if_neg ha]
      cases h : splitLines as with
      | nil => exact absurd h (splitLines_ne_nil as)
      | cons l ls =>
        rw [h] at ih
        show joinLines ((a :: l) :: ls) = a :: as
        rw [show (a :: l) :: ls = ([a] ++ l) :: ls from rfl,
          joinLines_cons_cons, ih]
        rfl

theorem splitLines_no_newline (c : Str) :
    ∀ l ∈ splitLines c, '\n' ∉ l := by
  induction c with
  | nil => intro l hl; simp [splitLines] at hl; simp [hl]
  | cons a as ih =>
    intro l hl
    rw [splitLines] at hl
    by_cases ha : a = '\n'
    · rw [if_pos ha] at hl
      rcases List.mem_cons.mp hl with rfl | h2
      · simp
      · exact ih l h2
    · rw [if_neg ha] at hl
      cases h : splitLines as with
      | nil => exact absurd h (splitLines_ne_nil as)
      | cons l' ls =>
        rw [h] at hl
        rcases List.mem_cons.mp hl with rfl | h2
        · intro hmem
          rcases List.mem_cons.mp hmem with h3 | h3
          · exact ha h3.symm
          · exact ih l' (by rw [h]; exact List.mem_cons_self l' ls) h3
        · exact ih l (by rw [h]; exact List.mem_cons_of_mem l' h2)

theorem splitLines_single {l : Str} (h : '\n' ∉ l) : splitLines l = [l] := by
  induction l with
  | nil => rfl
  | cons a as ih =>
    have ha : a ≠ '\n' := fun he => h (he ▸ List.mem_cons_self a as)
    rw [splitLines, if_neg ha, ih (fun hm => h (List.mem_cons_of_mem a hm))]

theorem splitLines_append {l : Str} (rest : Str) (h : '\n' ∉ l) :
    splitLines (l ++ '\n' :: rest) = l :: splitLines rest := by
  induction l with
  | nil => simp [splitLines]
  | cons a as ih =>
    have ha : a ≠ '\n' := fun he => h (he ▸ List.mem_cons_self a as)
    rw [List.cons_append, splitLines, if_neg ha,
      ih (fun hm => h (List.mem_cons_of_mem a hm))]

theorem splitLines_joinLines {L : List Str} (hne : L ≠ [])
    (h : ∀ l ∈ L, '\n' ∉ l) : splitLines (joinLines L) = L := by
  induction L with
  | nil => exact absurd rfl hne
  | cons l ls ih =>
    cases ls with
    | nil =>
      rw [show joinLines [l] = l from rfl,
        splitLines_single (h l (List.mem_cons_self l []))]
    | cons l' ls' =>
      rw [show joinLines (l :: l' :: ls') = l ++ '\n' :: joinLines (l' :: ls')
        from rfl,
        splitLines_append _ (h l (List.mem_cons_self l (l' :: ls'))),
        ih (by simp) (fun x hx => h x (List.mem_cons_of_mem l hx))]

theorem lineSub_none {t d l : Str} (h : lineMatchIdx t l = none) :
    lineSub t d l = l := by
  simp [lineSub, h]

theorem lineSub_no_newline {t d l : Str} (hl : '\n' ∉ l) (hd : '\n' ∉ d) :
    '\n' ∉ lineSub t d l := by
  rw [lineSub]
  cases h : lineMatchIdx t l with
  | none => exact hl
  | some i =>
    intro hmem
    rcases List.mem_append.mp hmem with h1 | h1
    · exact hl (List.mem_of_mem_take h1)
    rcases List.mem_append.mp h1 with h2 | h2
    · revert h2; decide
    rcases List.mem_append.mp h2 with h3 | h3
    · exact hl (List.mem_of_mem_drop h3)
    rcases List.mem_append.mp h3 with h4 | h4
    · revert h4; decide
    rcases List.mem_append.mp h4 with h5 | h5
    · exact hd h5
    · revert h5; decide

/-- The per-line effect of the whole task loop of
`update_progress_in_content`. -/
def lineFoldTasks (tasks : List CompletedTask) (l : Str) : Str :=
  tasks.foldl (fun x X => lineSub (X.task.take 30) X.date x) l

theorem lineFoldTasks_no_newline (tasks : List CompletedTask) {l : Str}
    (hl : '\n' ∉ l) (hD : ∀ X ∈ tasks, '\n' ∉ X.date) :
    '\n' ∉ lineFoldTasks tasks l := by
  induction tasks generalizing l with
  | nil => exact hl
  | cons X ts ih =>
    exact ih
      (lineSub_no_newline hl (hD X (List.mem_cons_self X ts)))
      (fun Y hY => hD Y (List.mem_cons_of_mem X hY))

theorem splitLines_taskContentSub (t d c : Str) (hd : '\n' ∉ d) :
    splitLines (taskContentSub t d c)
      = (splitLines c).map (lineSub t d) := by
  rw [taskContentSub]
  refine splitLines_joinLines ?_ ?_
  · intro h
    exact splitLines_ne_nil c (List.map_eq_nil_iff.mp h)
  · intro x hx
    rcases List.mem_map.mp hx with ⟨l, hl, rfl⟩
    exact lineSub_no_newline (splitLines_no_newline c l hl) hd

theorem update_as_lines (tasks : List CompletedTask) (c : Str)
    (hD : ∀ X ∈ tasks, '\n' ∉ X.date) :
    update_progress_in_content tasks c
      = joinLines ((splitLines c).map (lineFoldTasks tasks)) := by
  induction tasks generalizing c with
  | nil =>
    rw [update_progress_in_content, List.foldl_nil,
      show (splitLines c).map (lineFoldTasks [])
          = (splitLines c).map (fun l => l) from rfl,
      List.map_id', joinLines_splitLines]
  | cons X ts ih =>
    rw [update_progress_in_content, List.foldl_cons,
      ← update_progress_in_content,
      ih _ (fun Y hY => hD Y (List.mem_cons_of_mem X hY)),
      splitLines_taskContentSub _ _ _ (hD X (List.mem_cons_self X ts)),
      List.map_map]
    rfl

theorem lineFold_of_noUm {tasks : List CompletedTask} {x : Str}
    (h : ∀ j, ¬ prefAt umPat x j) : lineFoldTasks tasks x = x := by
  induction tasks with
  | nil => rfl
  | cons X ts ih =>
    rw [lineFoldTasks, List.foldl_cons,
      lineSub_none (lineMatchIdx_none_of_noUm h), ← lineFoldTasks]
    exact ih

theorem lineFold_cases (tasks : List CompletedTask) (l : Str)
    (hone : atMostOneUm l)
    (hD : ∀ X ∈ tasks, hasSub umPat X.date = false) :
    (lineFoldTasks tasks l = l
        ∧ ∀ X ∈ tasks, lineMatchIdx (X.task.take 30) l = none)
      ∨ (∀ j, ¬ prefAt umPat (lineFoldTasks tasks l) j) := by
  induction tasks with
  | nil => exact Or.inl ⟨rfl, by simp⟩
  | cons X ts ih =>
    cases hM : lineMatchIdx (X.task.take 30) l with
    | none =>
      have hstep : lineFoldTasks (X :: ts) l = lineFoldTasks ts l := by
        rw [lineFoldTasks, List.foldl_cons, lineSub_none hM, ← lineFoldTasks]
      rcases ih (fun Y hY => hD Y (List.mem_cons_of_mem X hY)) with
        ⟨he, hall⟩ | hno
      · refine Or.inl ⟨by rw [hstep, he], ?_⟩
        intro Y hY
        rcases List.mem_cons.mp hY with rfl | h2
        · exact hM
        · exact hall Y h2
      · exact Or.inr (by rw [hstep]; exact hno)
    | some i =>
      refine Or.inr ?_
      have hno : ∀ j,
          ¬ prefAt umPat (lineSub (X.task.take 30) X.date l) j :=
        lineSub_noUm hM hone (hD X (List.mem_cons_self X ts))
      have hstep : lineFoldTasks (X :: ts) l
          = lineSub (X.task.take 30) X.date l := by
        rw [lineFoldTasks, List.foldl_cons, ← lineFoldTasks]
        exact lineFold_of_noUm hno
      rw [hstep]
      exact hno

theorem lineFold_idem (tasks : List CompletedTask) (l : Str)
    (hone : atMostOneUm l)
    (hD : ∀ X ∈ tasks, hasSub umPat X.date = false) :
    lineFoldTasks tasks (lineFoldTasks tasks l) = lineFoldTasks tasks l := by
  rcases lineFold_cases tasks l hone hD with ⟨he, hall⟩ | hno
  · rw [he]; exact he
  · exact lineFold_of_noUm hno

theorem scanCompletedTasks_date {files : List PlanFile} {d : Str}
    {X : CompletedTask} (h : X ∈ scanCompletedTasks files d) : X.date = d := by
  rw [scanCompletedTasks] at h
  rcases List.mem_flatMap.mp h with ⟨f, _, hX⟩
  rcases List.mem_map.mp hX with ⟨t, _, rfl⟩
  rfl

/-- C4 counterexample: Progress Sync is not idempotent.  With one plan file
`a-plan.md` containing the completed task `X` and a todo file whose single
line contains two unchecked checkboxes `- [ ] a - [ ] X`, the first run
rewrites the leftmost one, and the second run (same plan files, no new
completions) matches and rewrites the inner `- [ ]` that the first
replacement left in the line, so the todo file changes again. -/
theorem c4_idempotence_counterexample :
    (runSync [⟨str "a-plan.md", str "- [x] X\n"⟩] (str "2026.10.12")
      (runSync [⟨str "a-plan.md", str "- [x] X\n"⟩] (str "2026.10.12")
        (str "- [ ] a - [ ] X")).1).1
    ≠ (runSync [⟨str "a-plan.md", str "- [x] X\n"⟩] (str "2026.10.12")
        (str "- [ ] a - [ ] X")).1 := by decide

/-- C4 (amended): if every line of the todo file contains at most one
occurrence of `- [ ]`, and the stamped date contains neither `- [ ]` nor a
newline, then running Progress Sync twice over the same plan files with no
new completions between the runs leaves the todo file byte-identical to its
state after the first run and reports the same completed-task count. -/
theorem c4_idempotent_amended (files : List PlanFile) (d todo : Str)
    (hd : hasSub umPat d = false) (hdn : '\n' ∉ d)
    (H : ∀ l ∈ splitLines todo, atMostOneUm l) :
    runSync files d (runSync files d todo).1 = runSync files d todo := by
  have hDn : ∀ X ∈ scanCompletedTasks files d, '\n' ∉ X.date := by
    intro X hX; rw [scanCompletedTasks_date hX]; exact hdn
  have hDs : ∀ X ∈ scanCompletedTasks files d,
      hasSub umPat X.date = false := by
    intro X hX; rw [scanCompletedTasks_date hX]; exact hd
  have hmain : update_progress_in_content (scanCompletedTasks files d)
      (update_progress_in_content (scanCompletedTasks files d) todo)
      = update_progress_in_content (scanCompletedTasks files d) todo := by
    rw [update_as_lines _ todo hDn]
    rw [update_as_lines _ _ hDn]
    rw [splitLines_joinLines
      (fun h => splitLines_ne_nil todo (List.map_eq_nil_iff.mp h))
      (fun x hx => by
        rcases List.mem_map.mp hx with ⟨l, hl, rfl⟩
        exact lineFoldTasks_no_newline _
          (splitLines_no_newline todo l hl) hDn)]
    rw [List.map_map]
    congr 1
    apply List.map_congr_left
    intro l hl
    exact lineFold_idem _ l (H l hl) hDs
  show (update_progress_in_content (scanCompletedTasks files d)
        (update_progress_in_content (scanCompletedTasks files d) todo),
      (scanCompletedTasks files d).length)
    = (update_progress_in_content (scanCompletedTasks files d) todo,
      (scanCompletedTasks files d).length)
  rw [hmain]

theorem c4_idempotent_amended_witness :
    runSync [⟨str "a-plan.md", str "- [x] X\n"⟩] (str "2026.10.12")
      (runSync [⟨str "a-plan.md", str "- [x] X\n"⟩] (str "2026.10.12")
        (str "- [ ] my X task\nother")).1
    = runSync [⟨str "a-plan.md", str "- [x] X\n"⟩] (str "2026.10.12")
        (str "- [ ] my X task\nother") :=
  c4_idempotent_amended _ _ _ (by decide) (by decide) (by decide)
